import Mathlib

/-!
# Verification of mistlib core components

Shallow embedding of the byte-level behaviour of mistlib's segmented socket
buffer (`src/lib/socket.cpp`), HTTP parser (`src/lib/http_parser.cpp`),
FLV tag engine (`src/lib/flv_tag.cpp`), MP4 header synthesiser
(`src/lib/mp4_conv.cpp`) and DTSC seek-position ordering (`src/lib/dtsc.h`).

Byte strings are modelled as `List Nat` with each element a byte value
(`< 256`); `char` buffer cells are modelled at byte level (the values the
spec's formulas quantify over), with wrap-around arithmetic written as
explicit `% 256` / `% 2^32`.
-/

namespace Socket

/-- Constant `BUFFER_BLOCKSIZE` from socket.cpp line 16. -/
def BUFFER_BLOCKSIZE : Nat := 4096

/-- One block scan of `Socket::Buffer::append`'s inner loop
(socket.cpp lines 58-64): starting from `j = i`, advance `j` while
`j < newdatasize && j - i <= BUFFER_BLOCKSIZE`, stopping just after a
newline.  `k` is the number of further increments the guard
`j - i <= BUFFER_BLOCKSIZE` still allows (initially `BUFFER_BLOCKSIZE + 1`,
since the guard is checked before each increment).  Returns the scanned
block `newdata[i..j)` and the remaining bytes. -/
def takeBlock : List Nat → Nat → List Nat × List Nat
  | [], _ => ([], [])
  | c :: rest, k =>
    if k = 0 then ([], c :: rest)
    else if c = 10 then ([c], rest)
    else
      let p := takeBlock rest (k - 1)
      (c :: p.1, p.2)

/-- The sequence of blocks `Socket::Buffer::append` pushes for one input
string (socket.cpp lines 55-71), in push order.  The outer loop runs while
`i < newdatasize`; the fuel argument is bounded by the input length since
every block is nonempty. -/
def splitGo : Nat → List Nat → List (List Nat)
  | _, [] => []
  | 0, _ :: _ => []
  | Nat.succ f, c :: rest =>
    let p := takeBlock (c :: rest) (BUFFER_BLOCKSIZE + 1)
    p.1 :: splitGo f p.2

def splitBlocks (nd : List Nat) : List (List Nat) :=
  splitGo nd.length nd

/-- Model of `Socket::Buffer`: the internal `std::deque<std::string> data`,
head = front of the deque (most recently appended block). -/
structure SBuffer where
  data : List (List Nat)
deriving DecidableEq, Repr

/-- Model of `Socket::Buffer::append(const char*, unsigned int)`
(socket.cpp lines 55-75): each scanned block is `push_front`ed. -/
def SBuffer.append (b : SBuffer) (newdata : List Nat) : SBuffer :=
  ⟨(splitBlocks newdata).foldl (fun d blk => blk :: d) b.data⟩

/-- The queued byte content of a buffer, oldest byte first.  The logical
front of the FIFO is the back of the deque. -/
def SBuffer.content (b : SBuffer) : List Nat :=
  b.data.reverse.flatten

/-- The loop of `Socket::Buffer::available` (socket.cpp lines 90-99):
walk the deque front to back accumulating sizes, returning true as soon
as the running total reaches `count`. -/
def availLoop : List (List Nat) → Nat → Nat → Bool
  | [], _, _ => false
  | blk :: rest, i, count =>
    let i' := i + blk.length
    if count ≤ i' then true else availLoop rest i' count

/-- Model of `Socket::Buffer::available(unsigned int)`. -/
def SBuffer.available (b : SBuffer) (count : Nat) : Bool :=
  availLoop b.data 0 count

/-- The loop of `Socket::Buffer::remove` (socket.cpp lines 110-120),
walking blocks from the back of the deque (oldest first); fully consumed
blocks are cleared in place, the final partially consumed block keeps its
tail.  Input list is the reversed deque; returns the removed bytes and the
updated (still reversed) block list. -/
def removeLoop : List (List Nat) → Nat → Nat → List Nat × List (List Nat)
  | [], _, _ => ([], [])
  | blk :: rest, i, count =>
    if i + blk.length < count then
      let p := removeLoop rest (i + blk.length) count
      (blk ++ p.1, [] :: p.2)
    else
      (blk.take (count - i), blk.drop (count - i) :: rest)

/-- Model of `Socket::Buffer::remove(unsigned int)` (socket.cpp lines 103-122):
returns the removed bytes and the updated buffer; returns `[]` and leaves
the buffer untouched when `available(count)` is false. -/
def SBuffer.remove (b : SBuffer) (count : Nat) : List Nat × SBuffer :=
  if b.available count then
    let p := removeLoop b.data.reverse 0 count
    (p.1, ⟨p.2.reverse⟩)
  else
    ([], b)

/-- Model of `Socket::Buffer::get` (socket.cpp lines 146-153): a reference to the
back block if the deque is nonempty, otherwise a shared static empty
string. -/
def SBuffer.get (b : SBuffer) : List Nat :=
  match b.data.getLast? with
  | some blk => blk
  | none => []

end Socket

namespace DTSC

/-- Model of `DTSC::seekPos` (dtsc.h lines 34-54). -/
structure seekPos where
  seekTime : Nat
  bytePos : Nat
  trackID : Nat
deriving DecidableEq, Repr

/-- Model of `DTSC::seekPos::operator<` (dtsc.h lines 35-50), translated
branch-for-branch: note that when `seekTime` is equal and `bytePos` is
not smaller, the code falls through to the `trackID` comparison without
first requiring `bytePos` equality. -/
def seekLt (a b : seekPos) : Bool :=
  if a.seekTime < b.seekTime then true
  else if a.seekTime = b.seekTime then
    if a.bytePos < b.bytePos then true
    else if a.trackID < b.trackID then true
    else false
  else false

end DTSC

namespace FLV

/-- Model of `FLV::Tag::tagTime()` getter (flv_tag.cpp lines 266-268), at byte
level: `(data[4] << 16) + (data[5] << 8) + data[6] + (data[7] << 24)`,
returned as `unsigned int`. -/
def tagTimeGet (data : List Nat) : Nat :=
  ((data.getD 4 0) * 2 ^ 16 + (data.getD 5 0) * 2 ^ 8 + data.getD 6 0 +
    (data.getD 7 0) * 2 ^ 24) % 2 ^ 32

/-- Model of `FLV::Tag::tagTime(unsigned int T)` setter (flv_tag.cpp lines
271-276): stores `(T>>16)&0xFF`, `(T>>8)&0xFF`, `T&0xFF`, `(T>>24)&0xFF`
into bytes 4,5,6,7. -/
def tagTimeSet (data : List Nat) (T : Nat) : List Nat :=
  ((((data.set 4 (T / 2 ^ 16 % 256)).set 5 (T / 2 ^ 8 % 256)).set 6
    (T % 256)).set 7 (T / 2 ^ 24 % 256))

end FLV

namespace HTTP

/-- Byte list of a Lean string literal (ASCII inputs only). -/
def strBytes (s : String) : List Nat := s.data.map (fun c => c.toNat)

/-- Model of `std::string::find(char)`: index of the first occurrence. -/
def findChar (c : Nat) : List Nat → Option Nat
  | [] => none
  | x :: rest => if x = c then some 0 else (findChar c rest).map (· + 1)

/-- The idiom `while (s.find('\r') != npos) s.erase(s.find('\r'));`
(http_parser.cpp lines 358-360, 453-455; one-argument `erase` truncates to
the end of the string, so this truncates at the first CR). -/
def truncCR (l : List Nat) : List Nat := l.takeWhile (fun c => c ≠ 13)

/-- Whitespace set of `HTTP::Parser::Trim`: space and tab. -/
def wsp (c : Nat) : Bool := c = 32 || c = 9

/-- Model of `HTTP::Parser::Trim` (http_parser.cpp lines 238-246). -/
def trim (l : List Nat) : List Nat :=
  ((l.dropWhile (fun c => wsp c)).reverse.dropWhile (fun c => wsp c)).reverse

/-- Model of `std::map<std::string,std::string>` update `m[k] = v` (insertion
position is irrelevant to lookups, so an association list suffices). -/
def setAssoc (m : List (List Nat × List Nat)) (k v : List Nat) :
    List (List Nat × List Nat) :=
  match m with
  | [] => [(k, v)]
  | (k', v') :: rest =>
    if k' = k then (k, v) :: rest else (k', v') :: setAssoc rest k v

/-- Model of `std::map` lookup `m[k]`, empty string when absent. -/
def getAssoc (m : List (List Nat × List Nat)) (k : List Nat) : List Nat :=
  match m with
  | [] => []
  | (k', v') :: rest => if k' = k then v' else getAssoc rest k

/-- Model of `HTTP::Parser::SetHeader` (http_parser.cpp lines 283-287). -/
def setHeader (hs : List (List Nat × List Nat)) (i v : List Nat) :
    List (List Nat × List Nat) :=
  setAssoc hs (trim i) (trim v)

/-- Model of `HTTP::Parser::SetVar` (http_parser.cpp lines 298-305): both key and
value trimmed, stored only when the trimmed key is nonempty. -/
def setVar (vs : List (List Nat × List Nat)) (i v : List Nat) :
    List (List Nat × List Nat) :=
  let i' := trim i
  if i' = [] then vs else setAssoc vs i' (trim v)

/-- C `atoi`: optional whitespace, optional sign, leading digits. -/
def atoiDigits : List Nat → Int → Int
  | [], acc => acc
  | c :: rest, acc =>
    if 48 ≤ c ∧ c ≤ 57 then atoiDigits rest (acc * 10 + ((c : Int) - 48))
    else acc

def atoiInt (l : List Nat) : Int :=
  let l1 := l.dropWhile (fun c => c = 32 || (9 ≤ c && c ≤ 13))
  match l1 with
  | 45 :: rest => -(atoiDigits rest 0)
  | 43 :: rest => atoiDigits rest 0
  | _ => atoiDigits l1 0

/-- Model of `int` → `unsigned int` conversion (modular). -/
def toU32 (i : Int) : Nat := (i % 4294967296).toNat

/-- Model of `int` → `char` → byte conversion (modular). -/
def toU8 (i : Int) : Nat := (i % 256).toNat

/-- Model of `HTTP::Parser::unhex` (http_parser.cpp lines 578-580). -/
def unhex (c : Nat) : Int :=
  if 48 ≤ c ∧ c ≤ 57 then (c : Int) - 48
  else if 65 ≤ c ∧ c ≤ 70 then (c : Int) - 65 + 10
  else (c : Int) - 97 + 10

/-- Model of `HTTP::Parser::urlunescape` (http_parser.cpp lines 551-574): `%HH`
decodes (partial escapes at end of input still emit the partial byte),
`+` becomes space. -/
def urlunescape : List Nat → List Nat
  | [] => []
  | c :: rest =>
    if c = 37 then
      match rest with
      | [] => [0]
      | [c1] => [toU8 (unhex c1 * 16)]
      | c1 :: c2 :: rest2 =>
        toU8 ((toU8 (unhex c1 * 16) : Int) + unhex c2) :: urlunescape rest2
    else if c = 43 then 32 :: urlunescape rest
    else c :: urlunescape rest

/-- Model of `HTTP::Parser::hex` (http_parser.cpp lines 600-611) on one nibble. -/
def hexDig (d : Nat) : Nat :=
  let d1 := if d ≤ 9 then d + 48 else d
  if 10 ≤ d1 ∧ d1 ≤ 15 then d1 + 87 else d1

/-- Model of `HTTP::Parser::hex` on one byte: two lowercase hex digits. -/
def hexByte (c : Nat) : List Nat := [hexDig (c % 256 / 16), hexDig (c % 16)]

/-- The unescaped character set of `HTTP::Parser::urlencode`
(http_parser.cpp lines 587-588): alphanumerics and `~ ! * ( ) '`. -/
def safeChar (c : Nat) : Bool :=
  (48 ≤ c && c ≤ 57) || (97 ≤ c && c ≤ 122) || (65 ≤ c && c ≤ 90) ||
    c = 126 || c = 33 || c = 42 || c = 40 || c = 41 || c = 39

/-- Model of `HTTP::Parser::urlencode` (http_parser.cpp lines 583-596). -/
def urlencode : List Nat → List Nat
  | [] => []
  | c :: rest =>
    if safeChar c then c :: urlencode rest
    else 37 :: (hexByte c ++ urlencode rest)

/-- Model of `HTTP::Parser` state (http_parser.h lines 39-55). -/
structure HState where
  seenHeaders : Bool
  seenReq : Bool
  getChunks : Bool
  headerOnly : Bool
  doingChunk : Nat
  length : Nat
  method : List Nat
  url : List Nat
  protocol : List Nat
  body : List Nat
  headers : List (List Nat × List Nat)
  vars : List (List Nat × List Nat)
deriving DecidableEq, Repr

/-- Model of `HTTP::Parser::Clean` (http_parser.cpp lines 15-27); the constructor
additionally sets `headerOnly = false`. -/
def cleanState : HState where
  seenHeaders := false
  seenReq := false
  getChunks := false
  headerOnly := false
  doingChunk := 0
  length := 0
  method := strBytes ("GET")
  url := strBytes ("/")
  protocol := strBytes ("HTTP/1.1")
  body := []
  headers := []
  vars := []

/-- One iteration of `HTTP::Parser::parseVars` (http_parser.cpp lines
485-513); `pos` strictly increases each round, so fuel `data.length + 1`
never runs out. -/
def parseVarsGo : Nat → List (List Nat × List Nat) → List Nat → Nat →
    List (List Nat × List Nat)
  | 0, vs, _, _ => vs
  | fuel + 1, vs, data, pos =>
    if pos < data.length then
      let nextpos :=
        match findChar 38 (data.drop pos) with
        | some f => pos + f
        | none => data.length
      let vs' :=
        match findChar 61 (data.drop pos) with
        | some f =>
          if pos + f < nextpos then
            setVar vs (urlunescape ((data.drop pos).take f))
              (urlunescape ((data.drop (pos + f + 1)).take (nextpos - (pos + f) - 1)))
          else
            setVar vs (urlunescape ((data.drop pos).take (nextpos - pos)))
              (urlunescape [])
        | none =>
          setVar vs (urlunescape ((data.drop pos).take (nextpos - pos)))
            (urlunescape [])
      parseVarsGo fuel vs' data (nextpos + 1)
    else vs

def parseVarsInto (vs : List (List Nat × List Nat)) (data : List Nat) :
    List (List Nat × List Nat) :=
  parseVarsGo (data.length + 1) vs data 0

/-- Request/response-line and header-line handling of
`HTTP::Parser::parse` (http_parser.cpp lines 361-418), applied to one
CR-stripped line. -/
def processLine (st : HState) (tmpA : List Nat) : HState :=
  if ¬ st.seenReq then
    let st1 := {st with seenReq := true}
    match findChar 32 tmpA with
    | none => {st1 with seenReq := false}
    | some f =>
      if tmpA.take 4 = strBytes ("HTTP") then
        let st2 := {st1 with protocol := tmpA.take f}
        let rest := tmpA.drop (f + 1)
        match findChar 32 rest with
        | none => {st2 with seenReq := false}
        | some f2 =>
          let u := rest.take f2
          let st3 := {st2 with url := u, method := rest.drop (f2 + 1)}
          match findChar 63 u with
          | some q => {st3 with vars := parseVarsInto st3.vars (u.drop (q + 1))}
          | none => st3
      else
        let st2 := {st1 with method := tmpA.take f}
        let rest := tmpA.drop (f + 1)
        match findChar 32 rest with
        | none => {st2 with seenReq := false}
        | some f2 =>
          let u := rest.take f2
          let st3 := {st2 with url := u, protocol := rest.drop (f2 + 1)}
          match findChar 63 u with
          | some q => {st3 with vars := parseVarsInto st3.vars (u.drop (q + 1))}
          | none => st3
  else
    if tmpA = [] then
      let st1 := {st with seenHeaders := true, body := []}
      let st2 :=
        if getAssoc st1.headers (strBytes ("Content-Length")) ≠ [] then
          let n := toU32 (atoiInt (getAssoc st1.headers (strBytes ("Content-Length"))))
          {st1 with length := n}
        else st1
      if getAssoc st2.headers (strBytes ("Transfer-Encoding")) = strBytes ("chunked") then
        {st2 with getChunks := true, doingChunk := 0}
      else st2
    else
      match findChar 58 tmpA with
      | none => st
      | some f => {st with headers := setHeader st.headers (tmpA.take f) (tmpA.drop (f + 1))}

/-- Body handling of `HTTP::Parser::parse` (http_parser.cpp lines
420-477), entered once headers are complete; every path returns. -/
def bodyPhase (st : HState) (buf : List Nat) : Bool × HState × List Nat :=
  if 0 < st.length then
    if st.headerOnly then (true, st, buf)
    else
      let toappend := st.length - st.body.length
      let st1 := if 0 < toappend then {st with body := st.body ++ buf.take toappend} else st
      let buf1 := if 0 < toappend then buf.drop toappend else buf
      if st1.length = st1.body.length then
        (true, {st1 with vars := parseVarsInto st1.vars st1.body}, buf1)
      else (false, st1, buf1)
  else if st.getChunks then
    if st.headerOnly then (true, st, buf)
    else if 0 < st.doingChunk then
      let toappend := min buf.length st.doingChunk
      let st1 := {st with body := st.body ++ buf.take toappend, doingChunk := st.doingChunk - toappend}
      (false, st1, buf.drop toappend)
    else
      match findChar 10 buf with
      | none => (false, st, buf)
      | some f =>
        let tmpA := truncCR (buf.take f)
        if tmpA = [] then (false, st, buf.drop (f + 1))
        else
          let chunkLen := tmpA.foldl
            (fun acc c => Nat.lor (acc * 16 % 4294967296) (toU32 (unhex c))) 0
          if chunkLen = 0 then (true, {st with getChunks := false}, buf)
          else (false, {st with doingChunk := chunkLen}, buf.drop (f + 1))
  else (true, st, buf)

/-- Model of `HTTP::Parser::parse` (http_parser.cpp lines 344-481).  The `while`
loop consumes at least one byte per header-line iteration and every
body-phase path returns, so fuel `buf.length + 1` never runs out. -/
def parseGo : Nat → HState → List Nat → Bool × HState × List Nat
  | 0, st, buf => (false, st, buf)
  | fuel + 1, st, buf =>
    if buf = [] then (false, st, buf)
    else if st.seenHeaders then bodyPhase st buf
    else
      match findChar 10 buf with
      | none => (false, st, buf)
      | some f =>
        let tmpA := truncCR (buf.take f)
        let buf' := buf.drop (f + 1)
        let st' := processLine st tmpA
        if st'.seenHeaders then bodyPhase st' buf'
        else parseGo fuel st' buf'

def parse (st : HState) (buf : List Nat) : Bool × HState × List Nat :=
  parseGo (buf.length + 1) st buf

/-- Model of `Socket::Buffer::size()`'s side effect (socket.cpp lines 28-33): pop
empty blocks from the back of the deque. -/
def dropTrailingEmpty (l : List (List Nat)) : List (List Nat) :=
  (l.reverse.dropWhile (fun blk => blk.isEmpty)).reverse

/-- In-place mutation of the back block obtained through
`Socket::Buffer::get()`. -/
def setBack (l : List (List Nat)) (b : List Nat) : List (List Nat) :=
  l.dropLast ++ [b]

/-- Model of the reference `Socket::Buffer::get()` (socket.cpp lines 146-153)
hands to `HTTP::Parser::Read`: the back block of the deque when one
exists, otherwise the shared static string, whose current content is
threaded as `se` (it starts out empty and is only ever written through
this reference). -/
def bufGet (data : List (List Nat)) (se : List Nat) : List Nat :=
  match data.getLast? with
  | some blk => blk
  | none => se

/-- Model of `HTTP::Parser::Read(Socket::Connection&)` (http_parser.cpp lines
312-328), acting on the deque of the connection's receive buffer and on
the content `se` of the shared static string that `Socket::Buffer::get()`
returns for a bufferless connection.  Each loop round dereferences
`rbegin()` of the block returned by `get()`; when that block is the empty
string the dereference has no defined value, modelled as `none`.  The
merge step copies the back block, clears it, lets `size()` pop empty back
blocks, and prepends the copy to the block `get()` now returns: the new
back block or, when the deque drained completely, the shared static
string (defined behaviour in the source, which then returns `false` or
parses the static string).  Returns (result, parser state, deque,
static-string content). -/
def readGo (st : HState) (data : List (List Nat)) (se : List Nat) :
    Option (Bool × HState × List (List Nat) × List Nat) :=
  match (bufGet data se).getLast? with
  | none => none
  | some c =>
    if c = 10 then
      let r := parse st (bufGet data se)
      match data.getLast? with
      | some _ => some (r.1, r.2.1, setBack data r.2.2, se)
      | none => some (r.1, r.2.1, data, r.2.2)
    else if hsz : 1 < (dropTrailingEmpty data).length then
      let tmp := bufGet data se
      let d1 := dropTrailingEmpty (setBack data [])
      if hd1 : d1 = [] then readGo st d1 (tmp ++ se)
      else readGo st (setBack d1 (tmp ++ bufGet d1 se)) se
    else some (false, st, data, se)
termination_by data.length
decreasing_by
  · have hd1e : dropTrailingEmpty (setBack data []) = [] := hd1
    rw [hd1e]
    have hle : (dropTrailingEmpty data).length ≤ data.length := by
      unfold dropTrailingEmpty
      rw [List.length_reverse]
      have h1 := (List.dropWhile_sublist (l := data.reverse)
        (p := fun blk : List Nat => blk.isEmpty)).length_le
      rw [List.length_reverse] at h1
      exact h1
    simp only [List.length_nil]
    omega
  · have hnil : data ≠ [] := by
      intro hcon
      subst hcon
      exact absurd hsz (by decide)
    have hlt : (dropTrailingEmpty (setBack data [])).length < data.length := by
      unfold dropTrailingEmpty setBack
      rw [List.reverse_append, List.length_reverse]
      have hstep : (([([] : List Nat)]).reverse ++ data.dropLast.reverse) =
          [] :: data.dropLast.reverse := rfl
      rw [hstep, List.dropWhile_cons]
      simp only [List.isEmpty_nil, if_true]
      have h1 := (List.dropWhile_sublist (l := data.dropLast.reverse)
        (p := fun blk : List Nat => blk.isEmpty)).length_le
      rw [List.length_reverse, List.length_dropLast] at h1
      have h2 : 0 < data.length := List.length_pos.mpr hnil
      omega
    have hsetlen : ∀ (l : List (List Nat)) (b : List Nat),
        (setBack l b).length = l.dropLast.length + 1 := by
      intro l b
      unfold setBack
      rw [List.length_append]
      rfl
    rw [hsetlen, List.length_dropLast]
    have hpos : 0 < (dropTrailingEmpty (setBack data [])).length :=
      List.length_pos.mpr hd1
    omega

end HTTP

namespace FLV

/-- Model of `FLV::Tag` buffer bookkeeping (flv_tag.h): `len` bytes used, `buf`
bytes allocated, `data = none` models a NULL pointer; plus the loader
state `done`/`sofar` and the keyframe flag. -/
structure Tag where
  len : Nat
  buf : Nat
  data : Option (List Nat)
  isKeyframe : Bool
  done : Bool
  sofar : Nat
deriving DecidableEq, Repr

/-- Package-level FLV state: `FLV::Parse_Error`, `FLV::Error_Str`,
`FLV::Header[13]` (flv_tag.cpp lines 17-20). -/
structure Globals where
  parseError : Bool
  errorStr : List Nat
  flvHeader : List Nat
deriving DecidableEq, Repr

/-- Model of `FLV::Tag::checkBufferSize` (flv_tag.cpp lines 1198-1211).
`allocOk` is the oracle for the `realloc` outcome; on success the old
bytes are retained and the fresh region is uninitialised (modelled as
zero bytes), on failure the old allocation is retained untouched and
`len` is clamped to `buf`. -/
def checkBufferSize (t : Tag) (allocOk : Bool) : Bool × Tag :=
  if t.buf < t.len ∨ t.data = none then
    if allocOk then
      let old := t.data.getD []
      (true, {t with data := some (old.take t.len ++ List.replicate (t.len - old.length) 0), buf := t.len})
    else
      (false, {t with len := t.buf})
  else (true, t)

/-- Model of `memcpy(dst + off, src, src.length)` on a byte list. -/
def blit (dst : List Nat) (off : Nat) (src : List Nat) : List Nat :=
  dst.take off ++ src ++ dst.drop (off + src.length)

/-- Model of `FLV::Tag::MemReadUntil` (flv_tag.cpp lines 763-780): copy up to
`count - sofar` bytes from `D[P..S)` into `buffer + sofar`; returns
(result, buffer, sofar, P). -/
def MemReadUntil (buffer : List Nat) (count sofar : Nat) (D : List Nat)
    (S P : Nat) : Bool × List Nat × Nat × Nat :=
  if count ≤ sofar then (true, buffer, sofar, P)
  else
    let r := if S < P + (count - sofar) then S - P else count - sofar
    (decide (count ≤ sofar + r), blit buffer sofar ((D.drop P).take r),
      sofar + r, P + r)

/-- Model of `FLV::Tag::FileReadUntil` (flv_tag.cpp lines 855-871): `fread` from a
file modelled as its remaining byte list (a list read never fails, so the
`r < 0` error path cannot occur); returns (result, buffer, sofar,
file). -/
def FileReadUntil (buffer : List Nat) (count sofar : Nat) (file : List Nat) :
    Bool × List Nat × Nat × List Nat :=
  if count ≤ sofar then (true, buffer, sofar, file)
  else
    let r := min (count - sofar) file.length
    (decide (count ≤ sofar + r), blit buffer sofar (file.take r), sofar + r,
      file.drop r)

/-- Model of `FLV::is_header` (flv_tag.cpp lines 46-51): first three bytes are
`'F','L','V'`. -/
def isHeaderBytes (d : List Nat) : Bool :=
  d.getD 0 0 = 70 && d.getD 1 0 = 76 && d.getD 2 0 = 86

/-- Model of `FLV::check_header` (flv_tag.cpp lines 29-42). -/
def checkHeaderBytes (d : List Nat) : Bool :=
  d.getD 0 0 = 70 && d.getD 1 0 = 76 && d.getD 2 0 = 86 &&
    d.getD 5 0 = 0 && d.getD 6 0 = 0 && d.getD 7 0 = 0 && d.getD 8 0 = 9 &&
    d.getD 9 0 = 0 && d.getD 10 0 = 0 && d.getD 11 0 = 0 && d.getD 12 0 = 0

/-- The header-reading (`done == true`) branch of `FLV::Tag::MemLoader`
(flv_tag.cpp lines 796-829). -/
def MemLoaderDone (t1 : Tag) (g : Globals) (D : List Nat) (P : Nat)
    (allocOk : Bool) : Bool × Tag × Globals × Nat :=
      let m := MemReadUntil (t1.data.getD []) 11 t1.sofar D D.length P
      let t2 := {t1 with data := some m.2.1, sofar := m.2.2.1}
      let P2 := m.2.2.2
      if m.1 then
        if isHeaderBytes (t2.data.getD []) then
          let m2 := MemReadUntil (t2.data.getD []) 13 t2.sofar D D.length P2
          let t3 := {t2 with data := some m2.2.1, sofar := m2.2.2.1}
          let P3 := m2.2.2.2
          if m2.1 then
            if checkHeaderBytes (t3.data.getD []) then
              (false, {t3 with sofar := 0},
                {g with flvHeader := (t3.data.getD []).take 13}, P3)
            else
              let g2 := {g with parseError := true, errorStr := HTTP.strBytes ("Invalid header received.")}
              (false, t3, g2, P3)
          else (false, t3, g, P3)
        else
          let d := t2.data.getD []
          let t3 := {t2 with
            len := d.getD 3 0 + 15 + d.getD 2 0 * 256 + d.getD 1 0 * 65536}
          let c2 := checkBufferSize t3 allocOk
          if c2.1 = false then (false, c2.2, g, P2)
          else
            let t4 := c2.2
            let d4 := t4.data.getD []
            if 18 < d4.getD 0 0 then
              let b := (d4.getD 0 0 + 32) % 256
              let g2 := {g with parseError := true, errorStr := HTTP.strBytes ("Invalid Tag received (") ++ [b] ++ HTTP.strBytes (").")}
              (false, {t4 with data := some (d4.set 0 b)}, g2, P2)
            else (false, {t4 with done := false}, g, P2)
      else (false, t2, g, P2)

/-- The body-reading (`done == false`) branch of `FLV::Tag::MemLoader`
(flv_tag.cpp lines 830-843). -/
def MemLoaderBody (t1 : Tag) (g : Globals) (D : List Nat) (P : Nat) :
    Bool × Tag × Globals × Nat :=
  let m := MemReadUntil (t1.data.getD []) t1.len t1.sofar D D.length P
  let t2 := {t1 with data := some m.2.1, sofar := m.2.2.1}
  let P2 := m.2.2.2
  if m.1 then
    let d := t2.data.getD []
    let kf := d.getD 0 0 = 9 && d.getD 11 0 % 256 / 16 = 1
    (true, {t2 with isKeyframe := kf, done := true, sofar := 0}, g, P2)
  else (false, t2, g, P2)

/-- Model of `FLV::Tag::MemLoader` (flv_tag.cpp lines 789-845).  Returns
(result, tag, globals, P). -/
def MemLoader (t : Tag) (g : Globals) (D : List Nat) (P : Nat)
    (allocOk : Bool) : Bool × Tag × Globals × Nat :=
  let t0 := if t.len < 15 then {t with len := 15} else t
  let c1 := checkBufferSize t0 allocOk
  if c1.1 = false then (false, c1.2, g, P)
  else
    let t1 := c1.2
    if t1.done then MemLoaderDone t1 g D P allocOk
    else MemLoaderBody t1 g D P

/-- The header-reading (`done == true`) branch of `FLV::Tag::FileLoader`
(flv_tag.cpp lines 888-925). -/
def FileLoaderDone (t1 : Tag) (g : Globals) (file : List Nat)
    (allocOk : Bool) : Bool × Tag × Globals × List Nat :=
      let m := FileReadUntil (t1.data.getD []) 11 t1.sofar file
      let t2 := {t1 with data := some m.2.1, sofar := m.2.2.1}
      let f2 := m.2.2.2
      if m.1 then
        if isHeaderBytes (t2.data.getD []) then
          let m2 := FileReadUntil (t2.data.getD []) 13 t2.sofar f2
          let t3 := {t2 with data := some m2.2.1, sofar := m2.2.2.1}
          let f3 := m2.2.2.2
          if m2.1 then
            if checkHeaderBytes (t3.data.getD []) then
              (false, {t3 with sofar := 0},
                {g with flvHeader := (t3.data.getD []).take 13}, f3)
            else
              let g2 := {g with parseError := true, errorStr := HTTP.strBytes ("Invalid header received.")}
              (false, t3, g2, f3)
          else (false, t3, g, f3)
        else
          let d := t2.data.getD []
          let t3 := {t2 with
            len := d.getD 3 0 + 15 + d.getD 2 0 * 256 + d.getD 1 0 * 65536}
          let c2 := checkBufferSize t3 allocOk
          if c2.1 = false then (false, c2.2, g, f2)
          else
            let t4 := c2.2
            let d4 := t4.data.getD []
            if 18 < d4.getD 0 0 then
              let b := (d4.getD 0 0 + 32) % 256
              let g2 := {g with parseError := true, errorStr := HTTP.strBytes ("Invalid Tag received (") ++ [b] ++ HTTP.strBytes (").")}
              (false, {t4 with data := some (d4.set 0 b)}, g2, f2)
            else (false, {t4 with done := false}, g, f2)
      else (false, t2, g, f2)

/-- The body-reading (`done == false`) branch of `FLV::Tag::FileLoader`
(flv_tag.cpp lines 926-942). -/
def FileLoaderBody (t1 : Tag) (g : Globals) (file : List Nat) :
    Bool × Tag × Globals × List Nat :=
  let m := FileReadUntil (t1.data.getD []) t1.len t1.sofar file
  let t2 := {t1 with data := some m.2.1, sofar := m.2.2.1}
  let f2 := m.2.2.2
  if m.1 then
    let d := t2.data.getD []
    let kf := d.getD 0 0 = 9 && d.getD 11 0 % 256 / 16 = 1
    (true, {t2 with isKeyframe := kf, done := true, sofar := 0}, g, f2)
  else (false, t2, g, f2)

/-- Model of `FLV::Tag::FileLoader` (flv_tag.cpp lines 878-945); the `fcntl`
non-blocking toggling and the `Util::sleep` calls have no bearing on the
returned state.  Returns (result, tag, globals, remaining file). -/
def FileLoader (t : Tag) (g : Globals) (file : List Nat) (allocOk : Bool) :
    Bool × Tag × Globals × List Nat :=
  let t0 := if t.len < 15 then {t with len := 15} else t
  let c1 := checkBufferSize t0 allocOk
  if c1.1 = false then (false, c1.2, g, file)
  else
    let t1 := c1.2
    if t1.done then FileLoaderDone t1 g file allocOk
    else FileLoaderBody t1 g file

/-- Model of `FLV::Tag::setLen` (flv_tag.cpp lines 488-498): write the
previous-tag-size `len - 4` big-endian into the final four bytes. -/
def setLen (t : Tag) : Tag :=
  let len4 := t.len - 4
  let d := t.data.getD []
  let d1 := d.set (t.len - 1) (len4 % 256)
  let d2 := d1.set (t.len - 2) (len4 / 256 % 256)
  let d3 := d2.set (t.len - 3) (len4 / 65536 % 256)
  let d4 := d3.set (t.len - 4) (len4 / 16777216 % 256)
  {t with data := some d4}

/-- The relevant fields of an `RTMPStream::Chunk` (external type; only
the fields `ChunkLoader` reads are modelled). -/
structure RtmpChunk where
  len : Nat
  data : List Nat
  msgTypeId : Nat
  timestamp : Nat
deriving DecidableEq, Repr

/-- Model of `FLV::Tag::ChunkLoader` (flv_tag.cpp lines 735-750). -/
def ChunkLoader (t : Tag) (O : RtmpChunk) (allocOk : Bool) : Bool × Tag :=
  let t0 := {t with len := O.len + 15}
  let step :=
    if 0 < t0.len then
      let c := checkBufferSize t0 allocOk
      if c.1 = false then none
      else some {c.2 with data := some (blit (c.2.data.getD []) 11 (O.data.take O.len))}
    else some t0
  match step with
  | none => (false, {t0 with len := t0.buf})
  | some t2 =>
    let t3 := setLen t2
    let d := t3.data.getD []
    let d1 := (((d.set 0 (O.msgTypeId % 256)).set 3 (O.len % 256)).set 2
      (O.len / 256 % 256)).set 1 (O.len / 65536 % 256)
    (true, {t3 with data := some (FLV.tagTimeSet d1 (O.timestamp % 2 ^ 32))})

/-- The common tail of the init-data builders (flv_tag.cpp lines 526-535,
583-592): `setLen`, type byte, 24-bit payload length, zero stream id,
zero timestamp. -/
def initTail (t : Tag) (typeByte : Nat) : Tag :=
  let t3 := setLen t
  let d := t3.data.getD []
  let d2 := ((((((d.set 0 typeByte).set 1 ((t3.len - 15) / 65536 % 256)).set 2
    ((t3.len - 15) / 256 % 256)).set 3 ((t3.len - 15) % 256)).set 8 0).set 9
    0).set 10 0
  {t3 with data := some (FLV.tagTimeSet d2 0)}

/-- The fields of the video-track JSON value that `DTSCVideoInit`
reads. -/
structure VideoMeta where
  codec : List Nat
  initData : List Nat
deriving DecidableEq, Repr

/-- Model of `FLV::Tag::DTSCVideoInit(JSON::Value&)` (flv_tag.cpp lines
507-536). -/
def DTSCVideoInit (t : Tag) (video : VideoMeta) (allocOk : Bool) :
    Bool × Tag × VideoMeta :=
  let video := if video.codec = HTTP.strBytes ("?") then
    {video with codec := HTTP.strBytes ("H264")} else video
  let t0 := if video.codec = HTTP.strBytes ("H264") then
    {t with len := video.initData.length + 20} else t
  let step :=
    if 0 < t0.len then
      let c := checkBufferSize t0 allocOk
      if c.1 = false then none
      else
        let d := blit (c.2.data.getD []) 16 (video.initData.take (t0.len - 20))
        some {c.2 with data := some (((((d.set 12 0).set 13 0).set 14 0).set 15
          0).set 11 23)}
    else some t0
  match step with
  | none => (false, {t0 with len := t0.buf}, video)
  | some t2 => (true, initTail t2 9, video)

/-- The fields of the audio-track JSON value that `DTSCAudioInit`
reads. -/
structure AudioMeta where
  codec : List Nat
  initData : List Nat
  rate : Nat
  size : Nat
  channels : Nat
deriving DecidableEq, Repr

/-- The audio flag byte accumulated into `data[11]` by `DTSCAudioInit`
(flv_tag.cpp lines 560-581). -/
def audioFlagByte (audio : AudioMeta) : Nat :=
  ((if audio.codec = HTTP.strBytes ("AAC") then 160 else 0) +
    (if audio.codec = HTTP.strBytes ("MP3") then 32 else 0) +
    (if 44100 ≤ audio.rate then 12 else if 22050 ≤ audio.rate then 8
      else if 11025 ≤ audio.rate then 4 else 0) +
    (if audio.size = 16 then 2 else 0) +
    (if 1 < audio.channels then 1 else 0)) % 256

/-- Model of `FLV::Tag::DTSCAudioInit(JSON::Value&)` (flv_tag.cpp lines
545-593). -/
def DTSCAudioInit (t : Tag) (audio : AudioMeta) (allocOk : Bool) :
    Bool × Tag × AudioMeta :=
  let tz := {t with len := 0}
  let audio := if audio.codec = HTTP.strBytes ("?") then
    {audio with codec := HTTP.strBytes ("AAC")} else audio
  let t0 := if audio.codec = HTTP.strBytes ("AAC") then
    {tz with len := audio.initData.length + 17} else tz
  let step :=
    if 0 < t0.len then
      let c := checkBufferSize t0 allocOk
      if c.1 = false then none
      else
        let d := blit (c.2.data.getD []) 13 (audio.initData.take (t0.len - 17))
        some {c.2 with data := some (((d.set 12 0).set 11 0).set 11
          (audioFlagByte audio))}
    else some t0
  match step with
  | none => (false, {t0 with len := t0.buf}, audio)
  | some t2 => (true, initTail t2 8, audio)

/-- The packet type tags of `DTSC::datatype` that `DTSCLoader` switches
on: VIDEO, AUDIO, META, and anything else (the `default` case). -/
inductive StreamType where
  | videoT
  | audioT
  | metaT
  | otherT
deriving DecidableEq, Repr

/-- The values `DTSCLoader` reads from the `DTSC::Stream` and from the
JSON value of the packet's track (flv_tag.cpp lines 351-485).  The
external `DTSC`/`JSON` machinery is abstracted to the accessed fields:
`trackValid` is the boolean conversion of the `track` JSON value,
`trackHasCodec` is `track.isMember("codec")`, the `has...` flags are the
`isMember` tests on the packet, and `metaPack` stands for the
`AMF::Pack()` serialisation of the metadata object built in the META
case. -/
structure DtscSrc where
  lastType : StreamType
  lastData : List Nat
  trackValid : Bool
  trackHasCodec : Bool
  codec : List Nat
  rate : Nat
  size : Nat
  channels : Nat
  hasNalu : Bool
  hasKeyframe : Bool
  hasInterframe : Bool
  hasDisposable : Bool
  offset : Int
  time : Nat
  metaPack : List Nat
deriving DecidableEq, Repr

/-- The value of `len` computed by the first `switch` of `DTSCLoader`
(flv_tag.cpp lines 354-388); in the `default` case `len` keeps the tag's
previous value. -/
def dtscLoaderLen (t : Tag) (S : DtscSrc) : Nat :=
  match S.lastType with
  | .videoT => S.lastData.length + 16 +
      (if S.trackValid = true ∧ S.trackHasCodec = true then
        (if S.codec = HTTP.strBytes ("H264") then 4 else 0) else 0)
  | .audioT => S.lastData.length + 16 +
      (if S.trackValid = true ∧ S.trackHasCodec = true then
        (if S.codec = HTTP.strBytes ("AAC") then 1 else 0) else 0)
  | .metaT => S.metaPack.length + 15
  | .otherT => t.len

/-- The video flag byte accumulated into `data[11]` by `DTSCLoader`
(flv_tag.cpp lines 409-424). -/
def dtscVideoFlag (S : DtscSrc) : Nat :=
  ((if S.trackHasCodec = true ∧ S.codec = HTTP.strBytes ("H264") then 7 else 0) +
    (if S.trackHasCodec = true ∧ S.codec = HTTP.strBytes ("H263") then 2 else 0) +
    (if S.hasKeyframe then 16 else 0) +
    (if S.hasInterframe then 32 else 0) +
    (if S.hasDisposable then 48 else 0)) % 256

/-- The audio flag byte accumulated into `data[11]` by `DTSCLoader`
(flv_tag.cpp lines 433-453). -/
def dtscAudioFlag (S : DtscSrc) : Nat :=
  ((if S.trackHasCodec = true ∧ S.codec = HTTP.strBytes ("AAC") then 160 else 0) +
    (if S.trackHasCodec = true ∧ S.codec = HTTP.strBytes ("MP3") then 32 else 0) +
    (if 44100 ≤ S.rate then 12 else if 22050 ≤ S.rate then 8
      else if 11025 ≤ S.rate then 4 else 0) +
    (if S.size = 16 then 2 else 0) +
    (if 1 < S.channels then 1 else 0)) % 256

/-- Model of `FLV::Tag::DTSCLoader(DTSC::Stream&)` (flv_tag.cpp lines
351-485).  The shifts on the signed `int offset` are arithmetic,
modelled with `Int.fdiv`, and the `& 0xFF` masks with `Int.emod 256`. -/
def DTSCLoader (t : Tag) (S : DtscSrc) (allocOk : Bool) : Bool × Tag :=
  let t0 := {t with len := dtscLoaderLen t S}
  let step :=
    if 0 < t0.len then
      let c := checkBufferSize t0 allocOk
      if c.1 = false then none
      else
        let d := c.2.data.getD []
        let d2 :=
          match S.lastType with
          | .videoT =>
            let d3 :=
              if t0.len = S.lastData.length + 16 then blit d 12 S.lastData
              else
                let da := blit d 16 S.lastData
                let db := da.set 12 (if S.hasNalu then 1 else 2)
                let dc := (db.set 13 ((S.offset.fdiv 65536).emod 256).toNat).set
                  14 ((S.offset.fdiv 256).emod 256).toNat
                dc.set 15 (S.offset.emod 256).toNat
            d3.set 11 (dtscVideoFlag S)
          | .audioT =>
            let d3 :=
              if t0.len = S.lastData.length + 16 then blit d 12 S.lastData
              else (blit d 13 S.lastData).set 12 1
            d3.set 11 (dtscAudioFlag S)
          | .metaT => blit d 11 S.metaPack
          | .otherT => d
        some {c.2 with data := some d2}
    else some t0
  match step with
  | none => (false, {t0 with len := t0.buf})
  | some t2 =>
    let t3 := setLen t2
    let d := t3.data.getD []
    let d0 :=
      match S.lastType with
      | .videoT => d.set 0 9
      | .audioT => d.set 0 8
      | .metaT => d.set 0 18
      | .otherT => d
    let d1 := ((d0.set 1 ((t3.len - 15) / 65536 % 256)).set 2
      ((t3.len - 15) / 256 % 256)).set 3 ((t3.len - 15) % 256)
    let d2 := ((d1.set 8 0).set 9 0).set 10 0
    (true, {t3 with data := some (FLV.tagTimeSet d2 (S.time % 2 ^ 32))})

/-- Model of `FLV::Tag::DTSCMetaInit` (flv_tag.cpp lines 598-731).  The
AMF metadata object built from the stream's track values is external; its
`Pack()` serialisation is abstracted as `metaPack`.  The codec
substitutions performed on the `videoRef`/`audioRef` track JSON values
are returned alongside the result. -/
def DTSCMetaInit (t : Tag) (videoRef : VideoMeta) (audioRef : AudioMeta)
    (metaPack : List Nat) (allocOk : Bool) :
    Bool × Tag × VideoMeta × AudioMeta :=
  let audioRef := if audioRef.codec = HTTP.strBytes ("?") then
    {audioRef with codec := HTTP.strBytes ("AAC")} else audioRef
  let videoRef := if videoRef.codec = HTTP.strBytes ("?") then
    {videoRef with codec := HTTP.strBytes ("H264")} else videoRef
  let t0 := {t with len := metaPack.length + 15}
  let step :=
    if 0 < t0.len then
      let c := checkBufferSize t0 allocOk
      if c.1 = false then none
      else
        let d2 := blit (c.2.data.getD []) 11 (metaPack.take (t0.len - 15))
        some {c.2 with data := some d2}
    else some t0
  match step with
  | none => (false, {t0 with len := t0.buf}, videoRef, audioRef)
  | some t2 => (true, initTail t2 18, videoRef, audioRef)

end FLV

namespace MP4

/-- Model of `MP4::keyPart` as filled by `DTSCMeta2MP4Header` (mp4_conv.cpp lines
49-62): one entry per key of any track with positive `size`, with
`parts` holding the decoded per-part byte sizes
(`JSON::decodeVector(keys[i]["parts"])`, an external helper). -/
structure keyPart where
  trackID : Nat
  size : Nat
  time : Nat
  len : Nat
  parts : List Nat
  partsize : Nat
deriving DecidableEq, Repr

/-- The inner loop of the `stco` fill (mp4_conv.cpp lines 244-248): for
each decoded part, emit the running `totalByteOffset`, then advance it by
the part's size. -/
def stcoOffsets (acc : Nat) : List Nat → List Nat
  | [] => []
  | p :: ps => acc :: stcoOffsets (acc + p) ps

/-- The outer loop of the `stco` fill (mp4_conv.cpp lines 240-252):
walk the interleaved `keyParts` set in order; keys of the current track
contribute one chunk-offset entry per decoded part, keys of other tracks
only advance `totalByteOffset` by their `size`. -/
def stcoLoop (kps : List keyPart) (tid : Nat) (acc : Nat) : List Nat :=
  match kps with
  | [] => []
  | kp :: rest =>
    if kp.trackID = tid then
      stcoOffsets acc kp.parts ++ stcoLoop rest tid (acc + kp.parts.sum)
    else
      stcoLoop rest tid (acc + kp.size)

/-- The `stco` entries of one track before the back-patch pass
(`totalByteOffset` starts at 0 for every track). -/
def stcoRaw (kps : List keyPart) (tid : Nat) : List Nat :=
  stcoLoop kps tid 0

/-- The back-patch pass (mp4_conv.cpp lines 264-304): after the `moov`
layout is known, `byteOffset = ftyp.boxedSize() + moov.boxedSize() + 8`
is added to every `stco` entry of every track
(`setChunkOffset(getChunkOffset(j) + byteOffset, j)`). -/
def stcoPatched (kps : List keyPart) (tid : Nat) (byteOffset : Nat) :
    List Nat :=
  (stcoRaw kps tid).map (· + byteOffset)

/-- The interleave order of media parts: all parts of all keys, keys in
`keyParts` set order, parts of one key in decoded order, each tagged with
its track id and size. -/
def interleaveParts : List keyPart → List (Nat × Nat)
  | [] => []
  | kp :: rest => kp.parts.map (fun s => (kp.trackID, s)) ++ interleaveParts rest

/-- Sum of the sizes of all parts (of any track) preceding the `i`-th
part of track `tid` in an interleaved part list. -/
def precedingSum : List (Nat × Nat) → Nat → Nat → Nat
  | [], _, _ => 0
  | (tr, s) :: rest, tid, i =>
    if tr = tid then
      if i = 0 then 0 else s + precedingSum rest tid (i - 1)
    else s + precedingSum rest tid i

end MP4

/-! ## Theorems -/

/-- C3: for every 32-bit value `T` and every tag buffer of at least 8
bytes, setting the timestamp with `tagTime(T)` and reading it back with
`tagTime()` returns `T`: both sides respect the split layout
`(data[4]<<16)|(data[5]<<8)|data[6]|(data[7]<<24)` with the high byte in
`data[7]`. -/
theorem flv_tagTime_roundtrip (data : List Nat) (T : Nat)
    (hlen : 8 ≤ data.length) (hT : T < 2 ^ 32) :
    FLV.tagTimeGet (FLV.tagTimeSet data T) = T := by
  match data, hlen with
  | a :: b :: c :: d :: e :: f :: g :: h :: rest, _ =>
    simp only [FLV.tagTimeSet, FLV.tagTimeGet, List.set, List.getD,
      List.get?, Option.getD_some]
    omega

/-- Witness for C3 at a concrete buffer and timestamp. -/
theorem flv_tagTime_roundtrip_witness :
    8 ≤ (List.replicate 11 0).length ∧ 3000000000 < 2 ^ 32 ∧
      FLV.tagTimeGet (FLV.tagTimeSet (List.replicate 11 0) 3000000000) =
        3000000000 :=
  ⟨by decide, by decide,
    flv_tagTime_roundtrip (List.replicate 11 0) 3000000000 (by decide)
      (by decide)⟩

/-- C4: starting from a freshly constructed (`Clean`) parser, feeding the
byte string `"HTTP/1.1 200 OK\r\nTransfer-Encoding: chunked\r\n\r\n5\r\nhello\r\n0\r\n\r\n"`
and repeatedly calling `Read` (= `parse`) on the remaining buffer returns
`true` on the fourth call, at which point `body = "hello"` and the
chunked flag `getChunks` has returned to `false`. -/
theorem http_chunked_parse_scenario :
    (let input := HTTP.strBytes
        ("HTTP/1.1 200 OK\r\nTransfer-Encoding: chunked\r\n\r\n5\r\nhello\r\n0\r\n\r\n")
     let r1 := HTTP.parse HTTP.cleanState input
     let r2 := HTTP.parse r1.2.1 r1.2.2
     let r3 := HTTP.parse r2.2.1 r2.2.2
     let r4 := HTTP.parse r3.2.1 r3.2.2
     r1.1 = false ∧ r2.1 = false ∧ r3.1 = false ∧ r4.1 = true ∧
       r4.2.1.body = HTTP.strBytes ("hello") ∧ r4.2.1.getChunks = false) := by
  decide

/-- Applying `unhex` after `hexDig` is the identity on nibbles. -/
theorem unhex_hexDig (d : Nat) (hd : d < 16) :
    HTTP.unhex (HTTP.hexDig d) = d := by
  unfold HTTP.hexDig HTTP.unhex
  by_cases h9 : d ≤ 9
  · simp only [h9, if_true]
    split <;> split <;> omega
  · simp only [h9, if_false]
    split <;> split <;> omega

/-- Characters the encoder leaves unescaped are neither `%` nor `+`. -/
theorem safeChar_ne_escape (c : Nat) (h : HTTP.safeChar c = true) :
    c ≠ 37 ∧ c ≠ 43 := by
  constructor <;> rintro rfl <;> simp [HTTP.safeChar] at h

/-- Decoding one encoded byte recovers it. -/
theorem toU8_decode (c : Nat) (hc : c < 256) :
    HTTP.toU8 ((HTTP.toU8 (HTTP.unhex (HTTP.hexDig (c % 256 / 16)) * 16) : Int) +
      HTTP.unhex (HTTP.hexDig (c % 16))) = c := by
  rw [Nat.mod_eq_of_lt hc]
  rw [unhex_hexDig (c / 16) (by omega), unhex_hexDig (c % 16) (by omega)]
  unfold HTTP.toU8
  omega

/-- Unescaping steps over a character that is neither `%` nor `+`. -/
theorem urlunescape_cons_plain (c : Nat) (l : List Nat) (h37 : c ≠ 37)
    (h43 : c ≠ 43) : HTTP.urlunescape (c :: l) = c :: HTTP.urlunescape l := by
  rw [HTTP.urlunescape.eq_def]
  simp [h37, h43]

/-- Unescaping consumes a full `%HH` escape. -/
theorem urlunescape_cons_escape (a b : Nat) (l : List Nat) :
    HTTP.urlunescape (37 :: a :: b :: l) =
      HTTP.toU8 ((HTTP.toU8 (HTTP.unhex a * 16) : Int) + HTTP.unhex b) ::
        HTTP.urlunescape l := by
  simp [HTTP.urlunescape]

/-- C7: for every byte string `s`,
`urlunescape(urlencode(s)) == s`. -/
theorem url_roundtrip (s : List Nat) (h : ∀ b ∈ s, b < 256) :
    HTTP.urlunescape (HTTP.urlencode s) = s := by
  induction s with
  | nil => rfl
  | cons c rest ih =>
    have hc : c < 256 := h c (List.mem_cons_self c rest)
    have hrest : ∀ b ∈ rest, b < 256 := fun b hb => h b (List.mem_cons_of_mem c hb)
    by_cases hs : HTTP.safeChar c = true
    · have hne := safeChar_ne_escape c hs
      simp only [HTTP.urlencode, hs, if_true]
      rw [urlunescape_cons_plain c _ hne.1 hne.2, ih hrest]
    · simp only [HTTP.urlencode, hs, Bool.false_eq_true, if_false, HTTP.hexByte,
        List.cons_append, List.nil_append]
      rw [urlunescape_cons_escape, toU8_decode c hc, ih hrest]

/-- Witness for C7 at a concrete byte string. -/
theorem url_roundtrip_witness :
    (∀ b ∈ [0, 65, 37, 255, 32, 97], b < 256) ∧
      HTTP.urlunescape (HTTP.urlencode [0, 65, 37, 255, 32, 97]) =
        [0, 65, 37, 255, 32, 97] :=
  ⟨by decide, url_roundtrip [0, 65, 37, 255, 32, 97] (by decide)⟩

/-- A block scan splits its input: block then remainder. -/
theorem takeBlock_append (l : List Nat) (k : Nat) :
    (Socket.takeBlock l k).1 ++ (Socket.takeBlock l k).2 = l := by
  induction l generalizing k with
  | nil => rfl
  | cons c rest ih =>
    by_cases hk : k = 0
    · simp [Socket.takeBlock, hk]
    · by_cases hc : c = 10
      · simp [Socket.takeBlock, hk, hc]
      · simp [Socket.takeBlock, hk, hc, ih]

/-- A block scanned from a nonempty input with nonzero allowance is
nonempty. -/
theorem takeBlock_ne_nil (c : Nat) (rest : List Nat) (k : Nat) (hk : k ≠ 0) :
    (Socket.takeBlock (c :: rest) k).1 ≠ [] := by
  by_cases hc : c = 10 <;> simp [Socket.takeBlock, hk, hc]

/-- A scanned block never exceeds the allowance. -/
theorem takeBlock_len_le (l : List Nat) (k : Nat) :
    (Socket.takeBlock l k).1.length ≤ k := by
  induction l generalizing k with
  | nil => simp [Socket.takeBlock]
  | cons c rest ih =>
    by_cases hk : k = 0
    · simp [Socket.takeBlock, hk]
    · by_cases hc : c = 10
      · simp [Socket.takeBlock, hk, hc]
        omega
      · simp [Socket.takeBlock, hk, hc]
        have := ih (k - 1)
        omega

/-- Inside a scanned block, a newline can only be the final byte. -/
theorem takeBlock_no_inner_newline (l : List Nat) (k i : Nat)
    (hi : i + 1 < (Socket.takeBlock l k).1.length) :
    (Socket.takeBlock l k).1.getD i 0 ≠ 10 := by
  induction l generalizing k i with
  | nil => simp [Socket.takeBlock] at hi
  | cons c rest ih =>
    by_cases hk : k = 0
    · simp [Socket.takeBlock, hk] at hi
    · by_cases hc : c = 10
      · simp [Socket.takeBlock, hk, hc] at hi
      · simp only [Socket.takeBlock, hk, hc, if_false, if_neg hk, if_neg hc] at hi ⊢
        match i with
        | 0 => simpa using hc
        | Nat.succ j =>
          simp only [List.length_cons] at hi
          simpa using ih (k - 1) j (by omega)

/-- The blocks pushed for one `append` call reassemble to the input. -/
theorem splitGo_flatten (f : Nat) (l : List Nat) (hf : l.length ≤ f) :
    (Socket.splitGo f l).flatten = l := by
  induction f generalizing l with
  | zero =>
    match l, hf with
    | [], _ => rfl
  | succ f ih =>
    match l with
    | [] => rfl
    | c :: rest =>
      have hsplit := takeBlock_append (c :: rest) (Socket.BUFFER_BLOCKSIZE + 1)
      have hne := takeBlock_ne_nil c rest (Socket.BUFFER_BLOCKSIZE + 1) (by decide)
      have hlen : (Socket.takeBlock (c :: rest) (Socket.BUFFER_BLOCKSIZE + 1)).2.length ≤ f := by
        have h1 : (Socket.takeBlock (c :: rest) (Socket.BUFFER_BLOCKSIZE + 1)).1.length +
            (Socket.takeBlock (c :: rest) (Socket.BUFFER_BLOCKSIZE + 1)).2.length =
            rest.length + 1 := by
          have := congrArg List.length hsplit
          simpa using this
        have h2 : (Socket.takeBlock (c :: rest) (Socket.BUFFER_BLOCKSIZE + 1)).1.length ≠ 0 := by
          simpa [List.length_eq_zero] using hne
        simp only [List.length_cons] at hf
        omega
      simp only [Socket.splitGo, List.flatten_cons, ih _ hlen, hsplit]

theorem splitBlocks_flatten (nd : List Nat) :
    (Socket.splitBlocks nd).flatten = nd :=
  splitGo_flatten nd.length nd (Nat.le_refl _)

/-- Folding `push_front` over a list of blocks prepends their reversal. -/
theorem foldl_push_front (l : List (List Nat)) (d : List (List Nat)) :
    l.foldl (fun d blk => blk :: d) d = l.reverse ++ d := by
  induction l generalizing d with
  | nil => rfl
  | cons blk rest ih => simp [List.foldl_cons, ih]

/-- An `append` adds exactly the appended bytes at the young end of the
queued content. -/
theorem content_append (b : Socket.SBuffer) (x : List Nat) :
    (b.append x).content = b.content ++ x := by
  unfold Socket.SBuffer.append Socket.SBuffer.content
  rw [foldl_push_front]
  simp [splitBlocks_flatten]

/-- Queued content of a buffer built by a sequence of `append` calls. -/
theorem content_foldl_append (xs : List (List Nat)) (b : Socket.SBuffer) :
    (xs.foldl Socket.SBuffer.append b).content = b.content ++ xs.flatten := by
  induction xs generalizing b with
  | nil => simp
  | cons x rest ih => simp [List.foldl_cons, ih, content_append, List.append_assoc]

/-- The `available` loop succeeds exactly on a nonempty deque holding
enough bytes. -/
theorem availLoop_iff (blks : List (List Nat)) (i count : Nat) :
    Socket.availLoop blks i count = true ↔
      blks ≠ [] ∧ count ≤ i + blks.flatten.length := by
  induction blks generalizing i with
  | nil => simp [Socket.availLoop]
  | cons blk rest ih =>
    simp only [Socket.availLoop]
    by_cases h : count ≤ i + blk.length
    · simp only [h, if_true]
      simp only [List.flatten_cons, List.length_append]
      constructor
      · intro
        exact ⟨List.cons_ne_nil _ _, by omega⟩
      · intro
        trivial
    · simp only [h, if_false, ih]
      simp only [List.flatten_cons, List.length_append]
      constructor
      · rintro ⟨hne, hle⟩
        exact ⟨List.cons_ne_nil _ _, by omega⟩
      · rintro ⟨hne, hle⟩
        constructor
        · cases hr : rest with
          | nil =>
            subst hr
            simp at hle
            omega
          | cons a l => simp
        · omega

/-- The `remove` loop returns the first `count - i` queued bytes and
leaves the rest (input blocks oldest first). -/
theorem removeLoop_spec (blks : List (List Nat)) (i count : Nat)
    (h : count ≤ i + blks.flatten.length) :
    (Socket.removeLoop blks i count).1 = blks.flatten.take (count - i) ∧
      (Socket.removeLoop blks i count).2.flatten = blks.flatten.drop (count - i) := by
  induction blks generalizing i with
  | nil =>
    simp only [List.flatten_nil, List.length_nil, Nat.add_zero] at h
    simp [Socket.removeLoop, Nat.sub_eq_zero_of_le h]
  | cons blk rest ih =>
    simp only [List.flatten_cons, List.length_append] at h
    simp only [Socket.removeLoop, List.flatten_cons]
    by_cases hlt : i + blk.length < count
    · simp only [hlt, if_true]
      have hrec := ih (i + blk.length) (by omega)
      have hsub : count - i - blk.length = count - (i + blk.length) := by omega
      constructor
      · rw [List.take_append_eq_append_take, hrec.1,
          List.take_of_length_le (by omega : blk.length ≤ count - i), hsub]
      · simp only [List.flatten_cons, List.flatten_nil, List.nil_append]
        rw [List.drop_append_eq_append_drop, hrec.2,
          List.drop_eq_nil_of_le (by omega : blk.length ≤ count - i), hsub,
          List.nil_append]
    · simp only [hlt, if_false]
      have h0 : count - i - blk.length = 0 := by omega
      constructor
      · rw [List.take_append_eq_append_take, h0, List.take_zero, List.append_nil]
      · simp only [List.flatten_cons]
        rw [List.drop_append_eq_append_drop, h0, List.drop_zero]

/-- Byte counts agree between deque order and FIFO order. -/
theorem flatten_reverse_length (l : List (List Nat)) :
    l.reverse.flatten.length = l.flatten.length := by
  induction l with
  | nil => rfl
  | cons blk rest ih =>
    simp [List.flatten_append, ih]
    omega

/-- C2: for every sequence of `append` calls on an empty buffer followed
by `remove(k)`: when at least `k` bytes are queued, `remove` returns
exactly the first `k` bytes of the concatenation of the appended strings
(oldest first) and removes exactly those bytes; when fewer than `k` bytes
are queued it returns the empty string and leaves the buffer unchanged. -/
theorem buffer_append_remove_fifo (xs : List (List Nat)) (k : Nat) :
    (k ≤ xs.flatten.length →
      ((xs.foldl Socket.SBuffer.append ⟨[]⟩).remove k).1 = xs.flatten.take k ∧
      ((xs.foldl Socket.SBuffer.append ⟨[]⟩).remove k).2.content = xs.flatten.drop k) ∧
    (xs.flatten.length < k →
      (xs.foldl Socket.SBuffer.append ⟨[]⟩).remove k =
        ([], xs.foldl Socket.SBuffer.append ⟨[]⟩)) := by
  set b := xs.foldl Socket.SBuffer.append ⟨[]⟩ with hb
  have hcontent : b.content = xs.flatten := by
    rw [hb, content_foldl_append]
    rfl
  have hclen : b.data.flatten.length = xs.flatten.length := by
    have := congrArg List.length hcontent
    unfold Socket.SBuffer.content at this
    rw [flatten_reverse_length] at this
    exact this
  constructor
  · intro hk
    unfold Socket.SBuffer.remove
    by_cases hav : b.available k
    · rw [if_pos hav]
      have hrest : k ≤ 0 + b.data.reverse.flatten.length := by
        rw [flatten_reverse_length]
        omega
      have hspec := removeLoop_spec b.data.reverse 0 k hrest
      constructor
      · rw [hspec.1, Nat.sub_zero]
        show b.content.take k = xs.flatten.take k
        rw [hcontent]
      · show (Socket.removeLoop b.data.reverse 0 k).2.reverse.reverse.flatten = _
        rw [List.reverse_reverse, hspec.2, Nat.sub_zero]
        show b.content.drop k = xs.flatten.drop k
        rw [hcontent]
    · have hdata : b.data = [] := by
        unfold Socket.SBuffer.available at hav
        have hfalse : Socket.availLoop b.data 0 k = false := by
          cases h : Socket.availLoop b.data 0 k
          · rfl
          · exact absurd h hav
        have hno : ¬(b.data ≠ [] ∧ k ≤ 0 + b.data.flatten.length) := by
          rw [← availLoop_iff, hfalse]
          simp
        by_contra hne
        exact hno ⟨hne, by omega⟩
      have hflat : xs.flatten = [] := by
        have : b.content = [] := by
          unfold Socket.SBuffer.content
          rw [hdata]
          rfl
        rw [← hcontent, this]
      have hk0 : k = 0 := by
        rw [hflat] at hk
        simpa using hk
      rw [if_neg hav, hk0, hflat]
      exact ⟨rfl, by simpa using hcontent.trans hflat⟩
  · intro hk
    unfold Socket.SBuffer.remove
    have hav : b.available k = false := by
      unfold Socket.SBuffer.available
      rw [Bool.eq_false_iff]
      intro hcontra
      rw [availLoop_iff] at hcontra
      omega
    simp [hav]

/-- Witness for C2 at a concrete append sequence. -/
theorem buffer_append_remove_fifo_witness :
    4 ≤ ([[1, 2, 10], [3, 4]] : List (List Nat)).flatten.length ∧
      ((([[1, 2, 10], [3, 4]] : List (List Nat)).foldl
          Socket.SBuffer.append ⟨[]⟩).remove 4).1 =
        ([[1, 2, 10], [3, 4]] : List (List Nat)).flatten.take 4 :=
  ⟨by decide, ((buffer_append_remove_fifo [[1, 2, 10], [3, 4]] 4).1 (by decide)).1⟩

/-- Scanning a newline-free input that fits the allowance consumes it
whole. -/
theorem takeBlock_replicate (n k c : Nat) (hc : c ≠ 10) (hk : n ≤ k) :
    Socket.takeBlock (List.replicate n c) k = (List.replicate n c, []) := by
  induction n generalizing k with
  | zero => rfl
  | succ n ih =>
    rw [List.replicate_succ]
    have hk0 : k ≠ 0 := by omega
    simp only [Socket.takeBlock, if_neg hk0, if_neg hc]
    rw [ih (k - 1) (by omega)]

/-- When the whole input is scanned as one block, `append` pushes exactly
that block. -/
theorem splitGo_single (f : Nat) (l : List Nat) (hne : l ≠ []) (hf : f ≠ 0)
    (htb : Socket.takeBlock l (Socket.BUFFER_BLOCKSIZE + 1) = (l, [])) :
    Socket.splitGo f l = [l] := by
  match f, l, hne, hf with
  | Nat.succ f, c :: rest, _, _ =>
    simp only [Socket.splitGo, htb]

/-- C8 counterexample: appending 4097 non-newline bytes to an empty
buffer stores a single block of 4097 bytes, exceeding
`BUFFER_BLOCKSIZE` = 4096 (the size guard `j - i <= BUFFER_BLOCKSIZE`
admits one extra byte). -/
theorem buffer_blocksize_counterexample :
    ((Socket.SBuffer.append ⟨[]⟩ (List.replicate 4097 97)).data.map
      List.length) = [4097] := by
  have htb : Socket.takeBlock (List.replicate 4097 97)
      (Socket.BUFFER_BLOCKSIZE + 1) = (List.replicate 4097 97, []) :=
    takeBlock_replicate 4097 (Socket.BUFFER_BLOCKSIZE + 1) 97 (by decide)
      (by decide)
  have hsplit : Socket.splitBlocks (List.replicate 4097 97) =
      [List.replicate 4097 97] := by
    unfold Socket.splitBlocks
    refine splitGo_single _ _ ?_ ?_ htb
    · exact List.ne_nil_of_length_pos (by rw [List.length_replicate]; omega)
    · rw [List.length_replicate]
      omega
  unfold Socket.SBuffer.append
  rw [hsplit]
  rw [show ([List.replicate 4097 97].foldl (fun d blk => blk :: d)
    ([] : List (List Nat))) = [List.replicate 4097 97] from rfl]
  rw [List.map_cons, List.map_nil, List.length_replicate]

/-- C8 (amended): after any sequence of `append` calls on an initially
empty buffer, every stored block has length at most
`BUFFER_BLOCKSIZE + 1` = 4097 bytes, and within every stored block a
newline occurs only as the block's final byte. -/
theorem buffer_append_block_invariant (xs : List (List Nat))
    (blk : List Nat) (hblk : blk ∈ (xs.foldl Socket.SBuffer.append ⟨[]⟩).data) :
    blk.length ≤ Socket.BUFFER_BLOCKSIZE + 1 ∧
      ∀ i, i + 1 < blk.length → blk.getD i 0 ≠ 10 := by
  have main : ∀ (ys : List (List Nat)) (b : Socket.SBuffer),
      (∀ bl ∈ b.data, bl.length ≤ Socket.BUFFER_BLOCKSIZE + 1 ∧
        ∀ i, i + 1 < bl.length → bl.getD i 0 ≠ 10) →
      ∀ bl ∈ (ys.foldl Socket.SBuffer.append b).data,
        bl.length ≤ Socket.BUFFER_BLOCKSIZE + 1 ∧
          ∀ i, i + 1 < bl.length → bl.getD i 0 ≠ 10 := by
    intro ys
    induction ys with
    | nil => intro b hB bl hbl; exact hB bl hbl
    | cons y rest ih =>
      intro b hB bl hbl
      refine ih (b.append y) ?_ bl hbl
      intro bl2 hbl2
      unfold Socket.SBuffer.append at hbl2
      rw [foldl_push_front] at hbl2
      rcases List.mem_append.mp hbl2 with hnew | hold
      · rw [List.mem_reverse] at hnew
        have hin : ∀ (f : Nat) (l : List Nat), bl2 ∈ Socket.splitGo f l →
            bl2.length ≤ Socket.BUFFER_BLOCKSIZE + 1 ∧
              ∀ i, i + 1 < bl2.length → bl2.getD i 0 ≠ 10 := by
          intro f
          induction f with
          | zero =>
            intro l hmem
            match l, hmem with
            | [], hmem => simp [Socket.splitGo] at hmem
          | succ f ihf =>
            intro l hmem
            match l with
            | [] => simp [Socket.splitGo] at hmem
            | c :: restl =>
              simp only [Socket.splitGo, List.mem_cons] at hmem
              rcases hmem with rfl | hmem
              · exact ⟨takeBlock_len_le _ _, fun i hi =>
                  takeBlock_no_inner_newline _ _ i hi⟩
              · exact ihf _ hmem
        exact hin _ _ hnew
      · exact hB bl2 hold
  exact main xs ⟨[]⟩ (by intro bl hbl; simp at hbl) blk hblk

/-- Witness for C8's amended invariant at a concrete append sequence. -/
theorem buffer_append_block_invariant_witness :
    ([97, 10] ∈ (([[97, 10, 98]] : List (List Nat)).foldl
        Socket.SBuffer.append ⟨[]⟩).data) ∧
      ([97, 10] : List Nat).length ≤ Socket.BUFFER_BLOCKSIZE + 1 :=
  ⟨by decide,
    (buffer_append_block_invariant [[97, 10, 98]] [97, 10] (by decide)).1⟩

/-- C10 (code_bug evidence): `DTSC::seekPos::operator<` is not asymmetric,
hence not a strict weak ordering: at `a = (0,5,1)` and `b = (0,3,2)` both
`a < b` and `b < a` hold, because the comparator omits the `bytePos`
equality guard before comparing `trackID`. -/
theorem seekPos_lt_not_asymmetric :
    DTSC.seekLt ⟨0, 5, 1⟩ ⟨0, 3, 2⟩ = true ∧
      DTSC.seekLt ⟨0, 3, 2⟩ ⟨0, 5, 1⟩ = true := by
  decide

/-- Length of the deque after writing the back block in place. -/
theorem setBack_length (l : List (List Nat)) (b : List Nat) :
    (HTTP.setBack l b).length = l.dropLast.length + 1 := by
  unfold HTTP.setBack
  rw [List.length_append]
  rfl

/-- Clearing the back block and letting `size()` pop empty back blocks
strictly shrinks a nonempty deque. -/
theorem dropTrailingEmpty_setBack_lt (data : List (List Nat))
    (hne : data ≠ []) :
    (HTTP.dropTrailingEmpty (HTTP.setBack data [])).length < data.length := by
  unfold HTTP.dropTrailingEmpty HTTP.setBack
  rw [List.reverse_append, List.length_reverse]
  have hstep : (([([] : List Nat)]).reverse ++ data.dropLast.reverse) =
      [] :: data.dropLast.reverse := rfl
  rw [hstep, List.dropWhile_cons]
  simp only [List.isEmpty_nil, if_true]
  have h1 := (List.dropWhile_sublist (l := data.dropLast.reverse)
    (p := fun blk : List Nat => blk.isEmpty)).length_le
  rw [List.length_reverse, List.length_dropLast] at h1
  have h2 : 0 < data.length := List.length_pos.mpr hne
  omega

/-- The reference `get()` returns is the back block when one exists. -/
theorem bufGet_of_getLast (data : List (List Nat)) (se bb : List Nat)
    (h : data.getLast? = some bb) : HTTP.bufGet data se = bb := by
  unfold HTTP.bufGet
  rw [h]

/-- On a drained deque with a nonempty static string, `Read` finishes in
one round: `get()` returns the static string, whose last byte either
ends the loop with `false` or sends it to `parse`. -/
theorem readGo_drained (st : HTTP.HState) (se : List Nat) (hse : se ≠ []) :
    ∃ r, HTTP.readGo st [] se = some r := by
  rw [HTTP.readGo]
  have hb : HTTP.bufGet [] se = se := rfl
  rw [hb, List.getLast?_eq_getLast se hse]
  by_cases h10 : se.getLast hse = 10
  · simp only [h10, if_true]
    exact ⟨_, rfl⟩
  · simp only [if_neg h10]
    rw [dif_neg (show ¬1 < (HTTP.dropTrailingEmpty ([] : List (List Nat))).length
      by decide)]
    exact ⟨_, rfl⟩

/-- The merge loop of `Read` terminates with a defined result on any deque
whose back block is nonempty: every merge round either keeps a nonempty
back block on a strictly shorter deque or drains the deque into the
static string. -/
theorem readGo_total (n : Nat) : ∀ (st : HTTP.HState) (data : List (List Nat))
    (se bb : List Nat), data.length ≤ n → data.getLast? = some bb → bb ≠ [] →
    ∃ r, HTTP.readGo st data se = some r := by
  induction n with
  | zero =>
    intro st data se bb hlen hdl hbb
    have hd : data = [] := List.length_eq_zero.mp (Nat.le_zero.mp hlen)
    subst hd
    simp at hdl
  | succ n ih =>
    intro st data se bb hlen hdl hbb
    rw [HTTP.readGo]
    rw [bufGet_of_getLast data se bb hdl]
    rw [List.getLast?_eq_getLast bb hbb]
    by_cases h10 : bb.getLast hbb = 10
    · simp only [h10, if_true]
      rw [hdl]
      exact ⟨_, rfl⟩
    · simp only [if_neg h10]
      by_cases hsz : 1 < (HTTP.dropTrailingEmpty data).length
      · rw [dif_pos hsz]
        by_cases hd1 : HTTP.dropTrailingEmpty (HTTP.setBack data []) = []
        · rw [dif_pos hd1, hd1]
          refine readGo_drained st (bb ++ se) ?_
          intro hcon
          exact hbb (List.append_eq_nil.mp hcon).1
        · rw [dif_neg hd1]
          refine ih st _ se
            (bb ++ HTTP.bufGet (HTTP.dropTrailingEmpty (HTTP.setBack data [])) se)
            ?_ ?_ ?_
          · rw [setBack_length, List.length_dropLast]
            have hne : data ≠ [] := by
              intro hcon
              subst hcon
              exact absurd hsz (by decide)
            have h2 := dropTrailingEmpty_setBack_lt data hne
            have hpos : 0 < (HTTP.dropTrailingEmpty (HTTP.setBack data [])).length :=
              List.length_pos.mpr hd1
            omega
          · unfold HTTP.setBack
            exact List.getLast?_concat _
          · intro hcon
            exact hbb (List.append_eq_nil.mp hcon).1
      · rw [dif_neg hsz]
        exact ⟨_, rfl⟩

/-- C9 (counterexample to the claim as stated): a buffer holding at least
one non-empty block does not make `Read` total.  With the non-empty block
`"h\n"` buffered behind an empty back block (e.g. one cleared by an
earlier merge round), `get()` returns the empty back block and the very
first operation of `Read` dereferences its `rbegin()`, which has no
defined value (modelled `none`, with the static string in its initial
empty state). -/
theorem http_read_nonempty_block_insufficient :
    (([104, 10] : List Nat) ∈ ([[104, 10], []] : List (List Nat)) ∧
      ([104, 10] : List Nat) ≠ []) ∧
      HTTP.readGo HTTP.cleanState [[104, 10], []] [] = none := by
  refine ⟨⟨by decide, by decide⟩, ?_⟩
  rw [HTTP.readGo]
  rfl

/-- C9 (amended): what `Read` needs is non-emptiness of the block `get()`
returns first, i.e. of the deque's back block: on a bufferless connection
`Socket::Buffer::get()` yields the shared static empty string, whose
`rbegin()` the very first operation of `Read` dereferences with no
defined value (modelled `none`), and an empty back block fails the same
way; under the precondition that the buffer holds a nonempty back block,
`Read` is total, whatever the static string holds. -/
theorem http_read_requires_nonempty_back_block :
    (Socket.SBuffer.get ⟨[]⟩ = [] ∧ (Socket.SBuffer.get ⟨[]⟩).getLast? = none ∧
      ∀ st : HTTP.HState, HTTP.readGo st [] [] = none) ∧
    (∀ (st : HTTP.HState) (data : List (List Nat)) (se bb : List Nat),
      data.getLast? = some bb → bb ≠ [] →
      ∃ r, HTTP.readGo st data se = some r) := by
  constructor
  · refine ⟨rfl, rfl, fun st => ?_⟩
    rw [HTTP.readGo]
    rfl
  · intro st data se bb hdl hbb
    exact readGo_total data.length st data se bb (Nat.le_refl _) hdl hbb

/-- Witness for C9's totality part at a concrete buffer. -/
theorem http_read_requires_nonempty_back_block_witness :
    (([[104, 10]] : List (List Nat)).getLast? = some [104, 10] ∧
      ([104, 10] : List Nat) ≠ []) ∧
      ∃ r, HTTP.readGo HTTP.cleanState [[104, 10]] [] = some r :=
  ⟨⟨by decide, by decide⟩,
    http_read_requires_nonempty_back_block.2 HTTP.cleanState [[104, 10]] []
      [104, 10] (by decide) (by decide)⟩

/-- Setting byte 0 of a nonempty buffer is observable at byte 0. -/
theorem getD_zero_set_zero (l : List Nat) (b : Nat) (hl : 0 < l.length) :
    (l.set 0 b).getD 0 0 = b := by
  cases l with
  | nil => simp at hl
  | cons x xs => rfl

/-- Uninitialised (zero-modelled) bytes read as zero. -/
theorem getD_replicate_zero (k i : Nat) :
    (List.replicate k (0 : Nat)).getD i 0 = 0 := by
  by_cases h : i < k
  · simp [List.getD_eq_getElem?_getD, List.getElem?_replicate, h]
  · rw [List.getD_eq_default]
    rw [List.length_replicate]
    omega

/-- Reading inside the prefix of a concatenation. -/
theorem getD_append_lt (l l' : List Nat) (i d : Nat) (h : i < l.length) :
    (l ++ l').getD i d = l.getD i d :=
  List.getD_append l l' d i h

/-- Reading inside a `take` prefix. -/
theorem getD_take_lt (l : List Nat) (n i d : Nat) (h : i < n) :
    (l.take n).getD i d = l.getD i d := by
  simp [List.getD_eq_getElem?_getD, List.getElem?_take, h]

/-- A `checkBufferSize` with a succeeding `realloc` always reports
success. -/
theorem cbs_true_fst (t : FLV.Tag) : (FLV.checkBufferSize t true).1 = true := by
  unfold FLV.checkBufferSize
  split <;> rfl

/-- The call `checkBufferSize` never touches `len`, `done`, `sofar` or the
keyframe flag on the success path. -/
theorem cbs_true_fields (t : FLV.Tag) :
    (FLV.checkBufferSize t true).2.len = t.len ∧
      (FLV.checkBufferSize t true).2.done = t.done ∧
      (FLV.checkBufferSize t true).2.sofar = t.sofar := by
  unfold FLV.checkBufferSize
  split <;> simp

/-- A successful reallocation preserves every byte below `len`. -/
theorem cbs_true_getD (t : FLV.Tag) (i : Nat) (hi : i < t.len) :
    (((FLV.checkBufferSize t true).2.data.getD []).getD i 0) =
      ((t.data.getD []).getD i 0) := by
  unfold FLV.checkBufferSize
  split
  · simp only [if_true, Option.getD_some]
    by_cases hio : i < (t.data.getD []).length
    · have h1 : i < ((t.data.getD []).take t.len).length := by
        rw [List.length_take]
        omega
      rw [getD_append_lt _ _ _ _ h1]
      exact getD_take_lt _ _ _ _ hi
    · have h2 : ((t.data.getD []).take t.len).length ≤ i := by
        rw [List.length_take]
        omega
      have hrhs : (t.data.getD []).getD i 0 = 0 :=
        List.getD_eq_default _ _ (by omega)
      rw [hrhs, List.getD_append_right _ _ _ _ h2]
      exact getD_replicate_zero _ _
  · rfl

/-- The buffer length after a successful `checkBufferSize`. -/
theorem cbs_true_datalen (t : FLV.Tag) :
    ((FLV.checkBufferSize t true).2.data.getD []).length = t.len ∨
      ((FLV.checkBufferSize t true).2.data.getD []).length =
        (t.data.getD []).length := by
  unfold FLV.checkBufferSize
  split
  · left
    simp only [if_true, Option.getD_some, List.length_append, List.length_take,
      List.length_replicate]
    omega
  · right
    rfl

/-- A fresh `MemReadUntil` with all `count` bytes available reads them in
one call. -/
theorem MemReadUntil_full (buffer : List Nat) (count : Nat) (D : List Nat)
    (P : Nat) (hc : 0 < count) (havail : P + count ≤ D.length) :
    FLV.MemReadUntil buffer count 0 D D.length P =
      (true, FLV.blit buffer 0 ((D.drop P).take count), count, P + count) := by
  unfold FLV.MemReadUntil
  rw [if_neg (by omega : ¬ count ≤ 0)]
  simp only [Nat.sub_zero, Nat.zero_add]
  rw [if_neg (by omega : ¬ D.length < P + count)]
  simp

/-- A fresh `FileReadUntil` with all `count` bytes available reads them
in one call. -/
theorem FileReadUntil_full (buffer : List Nat) (count : Nat) (file : List Nat)
    (hc : 0 < count) (havail : count ≤ file.length) :
    FLV.FileReadUntil buffer count 0 file =
      (true, FLV.blit buffer 0 (file.take count), count, file.drop count) := by
  unfold FLV.FileReadUntil
  rw [if_neg (by omega)]
  have hmin : min (count - 0) file.length = count := by omega
  simp only [Nat.sub_zero, Nat.zero_add] at hmin ⊢
  rw [hmin]
  simp [Nat.le_refl]

/-- Writing at offset 0 prepends the source over the old bytes. -/
theorem blit_zero (b src : List Nat) :
    FLV.blit b 0 src = src ++ b.drop src.length := by
  unfold FLV.blit
  simp

/-- The `FLV` magic test only reads the first three bytes. -/
theorem isHeaderBytes_append (hdr rest : List Nat) (h : 3 ≤ hdr.length) :
    FLV.isHeaderBytes (hdr ++ rest) = FLV.isHeaderBytes hdr := by
  unfold FLV.isHeaderBytes
  rw [getD_append_lt _ _ _ _ (by omega), getD_append_lt _ _ _ _ (by omega),
    getD_append_lt _ _ _ _ (by omega)]

/-- Reading past a `drop` prefix. -/
theorem getD_drop_zero (l : List Nat) (P d : Nat) :
    (l.drop P).getD 0 d = l.getD P d := by
  simp [List.getD_eq_getElem?_getD, List.getElem?_drop]

/-- Running `MemLoaderDone` on a completed 11-byte non-`FLV` header whose type
byte exceeds `0x12`: parse error raised, byte bumped by 32 (mod 256),
`false` returned, header state retained. -/
theorem memLoaderDone_bad_tagtype (t1 : FLV.Tag) (g : FLV.Globals)
    (D : List Nat) (P : Nat) (hsofar : t1.sofar = 0)
    (havail : P + 11 ≤ D.length)
    (hnofl : FLV.isHeaderBytes ((D.drop P).take 11) = false)
    (hlo : 19 ≤ D.getD P 0) :
    (FLV.MemLoaderDone t1 g D P true).1 = false ∧
      (FLV.MemLoaderDone t1 g D P true).2.2.1.parseError = true ∧
      (FLV.MemLoaderDone t1 g D P true).2.1.done = t1.done ∧
      ((FLV.MemLoaderDone t1 g D P true).2.1.data.getD []).getD 0 0 =
        (D.getD P 0 + 32) % 256 := by
  have hhdr_len : ((D.drop P).take 11).length = 11 := by
    rw [List.length_take, List.length_drop]
    omega
  simp only [FLV.MemLoaderDone, hsofar]
  rw [MemReadUntil_full _ 11 D P (by omega) havail, blit_zero]
  simp only [Option.getD_some]
  rw [isHeaderBytes_append _ _ (by omega), hnofl]
  simp only [Bool.false_eq_true, if_false, if_true]
  have hb0 : ∀ i d : Nat, i < 11 →
      (((D.drop P).take 11) ++
        (t1.data.getD []).drop ((D.drop P).take 11).length).getD i d =
      (D.drop P).getD i d := by
    intro i d hi
    rw [getD_append_lt _ _ _ _ (by omega), getD_take_lt _ _ _ _ hi]
  set t3 : FLV.Tag := {t1 with
    data := some (((D.drop P).take 11) ++
      (t1.data.getD []).drop ((D.drop P).take 11).length),
    sofar := 11,
    len := (((D.drop P).take 11) ++
        (t1.data.getD []).drop ((D.drop P).take 11).length).getD 3 0 + 15 +
      (((D.drop P).take 11) ++
        (t1.data.getD []).drop ((D.drop P).take 11).length).getD 2 0 * 256 +
      (((D.drop P).take 11) ++
        (t1.data.getD []).drop ((D.drop P).take 11).length).getD 1 0 * 65536}
    with ht3
  have ht3len : 15 ≤ t3.len := by
    simp only [ht3]
    omega
  have ht3data : t3.data.getD [] = ((D.drop P).take 11) ++
      (t1.data.getD []).drop ((D.drop P).take 11).length := by
    simp only [ht3, Option.getD_some]
  have ht3done : t3.done = t1.done := by
    simp only [ht3]
  have hcbs_ne : ¬ ((FLV.checkBufferSize t3 true).1 = false) := by
    rw [cbs_true_fst]
    simp
  rw [if_neg hcbs_ne]
  have hbyte0 : (((FLV.checkBufferSize t3 true).2.data.getD []).getD 0 0) =
      D.getD P 0 := by
    rw [cbs_true_getD t3 0 (by omega), ht3data, hb0 0 0 (by omega),
      getD_drop_zero]
  rw [hbyte0]
  rw [if_pos (by omega : 18 < D.getD P 0)]
  refine ⟨rfl, rfl, ?_, ?_⟩
  · show (FLV.checkBufferSize t3 true).2.done = t1.done
    rw [(cbs_true_fields t3).2.1, ht3done]
  · show (((FLV.checkBufferSize t3 true).2.data.getD []).set 0
      ((D.getD P 0 + 32) % 256)).getD 0 0 = (D.getD P 0 + 32) % 256
    rw [getD_zero_set_zero]
    rcases cbs_true_datalen t3 with h | h
    · omega
    · rw [h, ht3data, List.length_append, hhdr_len]
      omega

/-- Running `FileLoaderDone` on a completed 11-byte non-`FLV` header whose type
byte exceeds `0x12`: parse error raised, byte bumped by 32 (mod 256),
`false` returned, header state retained. -/
theorem fileLoaderDone_bad_tagtype (t1 : FLV.Tag) (g : FLV.Globals)
    (file : List Nat) (hsofar : t1.sofar = 0)
    (havail : 11 ≤ file.length)
    (hnofl : FLV.isHeaderBytes (file.take 11) = false)
    (hlo : 19 ≤ file.getD 0 0) :
    (FLV.FileLoaderDone t1 g file true).1 = false ∧
      (FLV.FileLoaderDone t1 g file true).2.2.1.parseError = true ∧
      (FLV.FileLoaderDone t1 g file true).2.1.done = t1.done ∧
      ((FLV.FileLoaderDone t1 g file true).2.1.data.getD []).getD 0 0 =
        (file.getD 0 0 + 32) % 256 := by
  have hhdr_len : (file.take 11).length = 11 := by
    rw [List.length_take]
    omega
  simp only [FLV.FileLoaderDone, hsofar]
  rw [FileReadUntil_full _ 11 file (by omega) havail, blit_zero]
  simp only [Option.getD_some]
  rw [isHeaderBytes_append _ _ (by omega), hnofl]
  simp only [Bool.false_eq_true, if_false, if_true]
  have hb0 : ∀ i d : Nat, i < 11 →
      ((file.take 11) ++
        (t1.data.getD []).drop (file.take 11).length).getD i d =
      file.getD i d := by
    intro i d hi
    rw [getD_append_lt _ _ _ _ (by omega), getD_take_lt _ _ _ _ hi]
  set t3 : FLV.Tag := {t1 with
    data := some ((file.take 11) ++
      (t1.data.getD []).drop (file.take 11).length),
    sofar := 11,
    len := ((file.take 11) ++
        (t1.data.getD []).drop (file.take 11).length).getD 3 0 + 15 +
      ((file.take 11) ++
        (t1.data.getD []).drop (file.take 11).length).getD 2 0 * 256 +
      ((file.take 11) ++
        (t1.data.getD []).drop (file.take 11).length).getD 1 0 * 65536}
    with ht3
  have ht3len : 15 ≤ t3.len := by
    simp only [ht3]
    omega
  have ht3data : t3.data.getD [] = (file.take 11) ++
      (t1.data.getD []).drop (file.take 11).length := by
    simp only [ht3, Option.getD_some]
  have ht3done : t3.done = t1.done := by
    simp only [ht3]
  have hcbs_ne : ¬ ((FLV.checkBufferSize t3 true).1 = false) := by
    rw [cbs_true_fst]
    simp
  rw [if_neg hcbs_ne]
  have hbyte0 : (((FLV.checkBufferSize t3 true).2.data.getD []).getD 0 0) =
      file.getD 0 0 := by
    rw [cbs_true_getD t3 0 (by omega), ht3data, hb0 0 0 (by omega)]
  rw [hbyte0]
  rw [if_pos (by omega : 18 < file.getD 0 0)]
  refine ⟨rfl, rfl, ?_, ?_⟩
  · show (FLV.checkBufferSize t3 true).2.done = t1.done
    rw [(cbs_true_fields t3).2.1, ht3done]
  · show (((FLV.checkBufferSize t3 true).2.data.getD []).set 0
      ((file.getD 0 0 + 32) % 256)).getD 0 0 = (file.getD 0 0 + 32) % 256
    rw [getD_zero_set_zero]
    rcases cbs_true_datalen t3 with h | h
    · omega
    · rw [h, ht3data, List.length_append, hhdr_len]
      omega

/-- C5: for every tag-type byte value from 0x13 through 0xFF, when the
FLV tag loader (`MemLoader` or `FileLoader`) completes an 11-byte header
that does not begin with `FLV` and whose first byte holds that value, it
sets `FLV::Parse_Error`, adds 32 to the byte (byte arithmetic, mod 256),
and returns `false` without entering the body-reading state (`done`
remains `true`). -/
theorem flv_bad_tagtype_rejected :
    (∀ (t : FLV.Tag) (g : FLV.Globals) (D : List Nat) (P : Nat),
      t.done = true → t.sofar = 0 → P + 11 ≤ D.length →
      FLV.isHeaderBytes ((D.drop P).take 11) = false →
      19 ≤ D.getD P 0 → D.getD P 0 ≤ 255 →
      ((FLV.MemLoader t g D P true).1 = false ∧
        (FLV.MemLoader t g D P true).2.2.1.parseError = true ∧
        (FLV.MemLoader t g D P true).2.1.done = true ∧
        ((FLV.MemLoader t g D P true).2.1.data.getD []).getD 0 0 =
          (D.getD P 0 + 32) % 256)) ∧
    (∀ (t : FLV.Tag) (g : FLV.Globals) (file : List Nat),
      t.done = true → t.sofar = 0 → 11 ≤ file.length →
      FLV.isHeaderBytes (file.take 11) = false →
      19 ≤ file.getD 0 0 → file.getD 0 0 ≤ 255 →
      ((FLV.FileLoader t g file true).1 = false ∧
        (FLV.FileLoader t g file true).2.2.1.parseError = true ∧
        (FLV.FileLoader t g file true).2.1.done = true ∧
        ((FLV.FileLoader t g file true).2.1.data.getD []).getD 0 0 =
          (file.getD 0 0 + 32) % 256)) := by
  constructor
  · intro t g D P hdone hsofar havail hnofl hlo hhi
    have hcore : ∀ t1 : FLV.Tag, t1.done = true → t1.sofar = 0 →
        (FLV.MemLoaderDone t1 g D P true).1 = false ∧
          (FLV.MemLoaderDone t1 g D P true).2.2.1.parseError = true ∧
          (FLV.MemLoaderDone t1 g D P true).2.1.done = true ∧
          ((FLV.MemLoaderDone t1 g D P true).2.1.data.getD []).getD 0 0 =
            (D.getD P 0 + 32) % 256 := by
      intro t1 h1 h2
      have h := memLoaderDone_bad_tagtype t1 g D P h2 havail hnofl hlo
      exact ⟨h.1, h.2.1, by rw [h.2.2.1, h1], h.2.2.2⟩
    simp only [FLV.MemLoader]
    by_cases h15 : t.len < 15
    · simp only [h15, if_true]
      rw [if_neg (by rw [cbs_true_fst]; simp)]
      have hdone1 : (FLV.checkBufferSize {t with len := 15} true).2.done = true := by
        rw [(cbs_true_fields _).2.1]
        exact hdone
      have hsofar1 : (FLV.checkBufferSize {t with len := 15} true).2.sofar = 0 := by
        rw [(cbs_true_fields _).2.2]
        exact hsofar
      rw [if_pos hdone1]
      exact hcore _ hdone1 hsofar1
    · simp only [h15, if_false]
      rw [if_neg (by rw [cbs_true_fst]; simp)]
      have hdone1 : (FLV.checkBufferSize t true).2.done = true := by
        rw [(cbs_true_fields _).2.1]
        exact hdone
      have hsofar1 : (FLV.checkBufferSize t true).2.sofar = 0 := by
        rw [(cbs_true_fields _).2.2]
        exact hsofar
      rw [if_pos hdone1]
      exact hcore _ hdone1 hsofar1
  · intro t g file hdone hsofar havail hnofl hlo hhi
    have hcore : ∀ t1 : FLV.Tag, t1.done = true → t1.sofar = 0 →
        (FLV.FileLoaderDone t1 g file true).1 = false ∧
          (FLV.FileLoaderDone t1 g file true).2.2.1.parseError = true ∧
          (FLV.FileLoaderDone t1 g file true).2.1.done = true ∧
          ((FLV.FileLoaderDone t1 g file true).2.1.data.getD []).getD 0 0 =
            (file.getD 0 0 + 32) % 256 := by
      intro t1 h1 h2
      have h := fileLoaderDone_bad_tagtype t1 g file h2 havail hnofl hlo
      exact ⟨h.1, h.2.1, by rw [h.2.2.1, h1], h.2.2.2⟩
    simp only [FLV.FileLoader]
    by_cases h15 : t.len < 15
    · simp only [h15, if_true]
      rw [if_neg (by rw [cbs_true_fst]; simp)]
      have hdone1 : (FLV.checkBufferSize {t with len := 15} true).2.done = true := by
        rw [(cbs_true_fields _).2.1]
        exact hdone
      have hsofar1 : (FLV.checkBufferSize {t with len := 15} true).2.sofar = 0 := by
        rw [(cbs_true_fields _).2.2]
        exact hsofar
      rw [if_pos hdone1]
      exact hcore _ hdone1 hsofar1
    · simp only [h15, if_false]
      rw [if_neg (by rw [cbs_true_fst]; simp)]
      have hdone1 : (FLV.checkBufferSize t true).2.done = true := by
        rw [(cbs_true_fields _).2.1]
        exact hdone
      have hsofar1 : (FLV.checkBufferSize t true).2.sofar = 0 := by
        rw [(cbs_true_fields _).2.2]
        exact hsofar
      rw [if_pos hdone1]
      exact hcore _ hdone1 hsofar1

/-- Witness for C5 at tag type 0x13 on a fresh tag. -/
theorem flv_bad_tagtype_rejected_witness :
    ((⟨0, 0, none, false, true, 0⟩ : FLV.Tag).done = true ∧
      0 + 11 ≤ ([19, 0, 0, 1, 9, 9, 9, 9, 9, 9, 9] : List Nat).length ∧
      FLV.isHeaderBytes ((([19, 0, 0, 1, 9, 9, 9, 9, 9, 9, 9] : List Nat).drop 0).take 11) = false) ∧
    ((FLV.MemLoader ⟨0, 0, none, false, true, 0⟩ ⟨false, [], []⟩
        [19, 0, 0, 1, 9, 9, 9, 9, 9, 9, 9] 0 true).1 = false ∧
      (FLV.MemLoader ⟨0, 0, none, false, true, 0⟩ ⟨false, [], []⟩
        [19, 0, 0, 1, 9, 9, 9, 9, 9, 9, 9] 0 true).2.2.1.parseError = true ∧
      (FLV.MemLoader ⟨0, 0, none, false, true, 0⟩ ⟨false, [], []⟩
        [19, 0, 0, 1, 9, 9, 9, 9, 9, 9, 9] 0 true).2.1.done = true ∧
      ((FLV.MemLoader ⟨0, 0, none, false, true, 0⟩ ⟨false, [], []⟩
        [19, 0, 0, 1, 9, 9, 9, 9, 9, 9, 9] 0 true).2.1.data.getD []).getD 0 0 =
        (([19, 0, 0, 1, 9, 9, 9, 9, 9, 9, 9] : List Nat).getD 0 0 + 32) % 256) :=
  ⟨⟨by decide, by decide, by decide⟩,
    flv_bad_tagtype_rejected.1 ⟨0, 0, none, false, true, 0⟩ ⟨false, [], []⟩
      [19, 0, 0, 1, 9, 9, 9, 9, 9, 9, 9] 0 (by decide) (by decide) (by decide)
      (by decide) (by decide) (by decide)⟩

/-- C6: when `checkBufferSize` cannot grow the buffer (`realloc` fails)
it clamps `len` to the existing capacity `buf`, leaves the buffer bytes
untouched, and returns `false`; when it returns `true` the capacity is at
least `len`; and each enclosing load operation (`MemLoader`,
`FileLoader`, `ChunkLoader`, `DTSCLoader`, and the init-data builders
`DTSCVideoInit` / `DTSCAudioInit` / `DTSCMetaInit`) that needs the
reallocation returns `false` with the buffer bytes unchanged and `len`
clamped, before performing any write. -/
theorem flv_checkBufferSize_contract :
    (∀ t : FLV.Tag, (t.buf < t.len ∨ t.data = none) →
      FLV.checkBufferSize t false = (false, {t with len := t.buf})) ∧
    (∀ (t : FLV.Tag) (ok : Bool), (FLV.checkBufferSize t ok).1 = true →
      (FLV.checkBufferSize t ok).2.len ≤ (FLV.checkBufferSize t ok).2.buf) ∧
    (∀ (t : FLV.Tag) (g : FLV.Globals) (D : List Nat) (P : Nat),
      (t.buf < (if t.len < 15 then 15 else t.len) ∨ t.data = none) →
      FLV.MemLoader t g D P false = (false, {t with len := t.buf}, g, P)) ∧
    (∀ (t : FLV.Tag) (g : FLV.Globals) (file : List Nat),
      (t.buf < (if t.len < 15 then 15 else t.len) ∨ t.data = none) →
      FLV.FileLoader t g file false = (false, {t with len := t.buf}, g, file)) ∧
    (∀ (t : FLV.Tag) (O : FLV.RtmpChunk),
      (t.buf < O.len + 15 ∨ t.data = none) →
      FLV.ChunkLoader t O false = (false, {t with len := t.buf})) ∧
    (∀ (t : FLV.Tag) (video : FLV.VideoMeta),
      (video.codec = HTTP.strBytes ("H264") ∨ video.codec = HTTP.strBytes ("?")) →
      (t.buf < video.initData.length + 20 ∨ t.data = none) →
      ((FLV.DTSCVideoInit t video false).1 = false ∧
        (FLV.DTSCVideoInit t video false).2.1 = {t with len := t.buf})) ∧
    (∀ (t : FLV.Tag) (audio : FLV.AudioMeta),
      (audio.codec = HTTP.strBytes ("AAC") ∨ audio.codec = HTTP.strBytes ("?")) →
      (t.buf < audio.initData.length + 17 ∨ t.data = none) →
      ((FLV.DTSCAudioInit t audio false).1 = false ∧
        (FLV.DTSCAudioInit t audio false).2.1 = {t with len := t.buf})) ∧
    (∀ (t : FLV.Tag) (S : FLV.DtscSrc), 0 < FLV.dtscLoaderLen t S →
      (t.buf < FLV.dtscLoaderLen t S ∨ t.data = none) →
      FLV.DTSCLoader t S false = (false, {t with len := t.buf})) ∧
    (∀ (t : FLV.Tag) (videoRef : FLV.VideoMeta) (audioRef : FLV.AudioMeta)
      (metaPack : List Nat),
      (t.buf < metaPack.length + 15 ∨ t.data = none) →
      ((FLV.DTSCMetaInit t videoRef audioRef metaPack false).1 = false ∧
        (FLV.DTSCMetaInit t videoRef audioRef metaPack false).2.1 =
          {t with len := t.buf})) := by
  have hfail : ∀ t : FLV.Tag, (t.buf < t.len ∨ t.data = none) →
      FLV.checkBufferSize t false = (false, {t with len := t.buf}) := by
    intro t h
    unfold FLV.checkBufferSize
    rw [if_pos h]
    rfl
  refine ⟨hfail, ?_, ?_, ?_, ?_, ?_, ?_, ?_, ?_⟩
  · intro t ok hok
    unfold FLV.checkBufferSize at hok ⊢
    by_cases hcond : t.buf < t.len ∨ t.data = none
    · rw [if_pos hcond] at hok ⊢
      cases ok with
      | false => simp at hok
      | true => simp
    · rw [if_neg hcond] at hok ⊢
      push_neg at hcond
      exact hcond.1
  · intro t g D P h
    simp only [FLV.MemLoader]
    by_cases h15 : t.len < 15
    · simp only [h15, if_true]
      rw [hfail {t with len := 15} (by simpa [h15, if_true] using h)]
      rfl
    · simp only [h15, if_false]
      rw [hfail t (by simpa [h15, if_false] using h)]
      rfl
  · intro t g file h
    simp only [FLV.FileLoader]
    by_cases h15 : t.len < 15
    · simp only [h15, if_true]
      rw [hfail {t with len := 15} (by simpa [h15, if_true] using h)]
      rfl
    · simp only [h15, if_false]
      rw [hfail t (by simpa [h15, if_false] using h)]
      rfl
  · intro t O h
    simp only [FLV.ChunkLoader]
    rw [if_pos (show 0 < ({t with len := O.len + 15} : FLV.Tag).len by
      show 0 < O.len + 15
      omega)]
    rw [hfail {t with len := O.len + 15} (by simpa using h)]
    rfl
  · intro t video hcodec h
    rcases hcodec with hc | hc
    · have h1 : ¬(video.codec = HTTP.strBytes ("?")) := by
        rw [hc]
        decide
      have ht0 : 0 < ({t with len := video.initData.length + 20} : FLV.Tag).len := by
        show 0 < video.initData.length + 20
        omega
      have hcb := hfail {t with len := video.initData.length + 20} (by simpa using h)
      simp only [FLV.DTSCVideoInit, if_neg h1, if_pos hc, if_true, if_pos ht0, hcb]
      exact ⟨trivial, trivial⟩
    · have h2 : ({video with codec := HTTP.strBytes ("H264")} : FLV.VideoMeta).codec =
          HTTP.strBytes ("H264") := rfl
      have ht0 : 0 < ({t with len := ({video with codec := HTTP.strBytes ("H264")} : FLV.VideoMeta).initData.length + 20} : FLV.Tag).len := by
        show 0 < video.initData.length + 20
        omega
      have hcb := hfail {t with len := ({video with codec := HTTP.strBytes ("H264")} : FLV.VideoMeta).initData.length + 20} (by simpa using h)
      simp only [FLV.DTSCVideoInit, if_pos hc, if_pos h2, if_true, if_pos ht0, hcb]
      exact ⟨trivial, trivial⟩
  · intro t audio hcodec h
    rcases hcodec with hc | hc
    · have h1 : ¬(audio.codec = HTTP.strBytes ("?")) := by
        rw [hc]
        decide
      have ht0 : 0 < ({({t with len := 0} : FLV.Tag) with len := audio.initData.length + 17} : FLV.Tag).len := by
        show 0 < audio.initData.length + 17
        omega
      have hcb := hfail {({t with len := 0} : FLV.Tag) with len := audio.initData.length + 17} (by simpa using h)
      simp only [FLV.DTSCAudioInit, if_neg h1, if_pos hc, if_true, if_pos ht0, hcb]
      exact ⟨trivial, trivial⟩
    · have h2 : ({audio with codec := HTTP.strBytes ("AAC")} : FLV.AudioMeta).codec =
          HTTP.strBytes ("AAC") := rfl
      have ht0 : 0 < ({({t with len := 0} : FLV.Tag) with len := ({audio with codec := HTTP.strBytes ("AAC")} : FLV.AudioMeta).initData.length + 17} : FLV.Tag).len := by
        show 0 < audio.initData.length + 17
        omega
      have hcb := hfail {({t with len := 0} : FLV.Tag) with len := ({audio with codec := HTTP.strBytes ("AAC")} : FLV.AudioMeta).initData.length + 17} (by simpa using h)
      simp only [FLV.DTSCAudioInit, if_pos hc, if_pos h2, if_true, if_pos ht0, hcb]
      exact ⟨trivial, trivial⟩
  · intro t S h0 h
    simp only [FLV.DTSCLoader]
    rw [if_pos (show 0 < ({t with len := FLV.dtscLoaderLen t S} : FLV.Tag).len
      from h0)]
    rw [hfail {t with len := FLV.dtscLoaderLen t S} (by simpa using h)]
    rfl
  · intro t videoRef audioRef metaPack h
    have ht0 : 0 < ({t with len := metaPack.length + 15} : FLV.Tag).len := by
      show 0 < metaPack.length + 15
      omega
    have hcb := hfail {t with len := metaPack.length + 15} (by simpa using h)
    simp only [FLV.DTSCMetaInit, if_pos ht0, hcb, if_true]
    exact ⟨trivial, trivial⟩

/-- Witness for C6 at a concrete tag with a NULL buffer. -/
theorem flv_checkBufferSize_contract_witness :
    ((⟨20, 0, none, false, true, 0⟩ : FLV.Tag).buf <
        (⟨20, 0, none, false, true, 0⟩ : FLV.Tag).len ∨
      (⟨20, 0, none, false, true, 0⟩ : FLV.Tag).data = none) ∧
      FLV.checkBufferSize ⟨20, 0, none, false, true, 0⟩ false =
        (false, {(⟨20, 0, none, false, true, 0⟩ : FLV.Tag) with len := 0}) :=
  ⟨by decide,
    flv_checkBufferSize_contract.1 ⟨20, 0, none, false, true, 0⟩ (by decide)⟩

/-- Length of the per-key offset run. -/
theorem stcoOffsets_length (acc : Nat) (ps : List Nat) :
    (MP4.stcoOffsets acc ps).length = ps.length := by
  induction ps generalizing acc with
  | nil => rfl
  | cons p ps ih => simp [MP4.stcoOffsets, ih]

/-- The `i`-th offset of one key is the base plus the sizes of the key's
earlier parts. -/
theorem stcoOffsets_getD (acc : Nat) (ps : List Nat) (i : Nat)
    (h : i < ps.length) :
    (MP4.stcoOffsets acc ps).getD i 0 = acc + (ps.take i).sum := by
  induction ps generalizing acc i with
  | nil => simp at h
  | cons p ps ih =>
    match i with
    | 0 => simp [MP4.stcoOffsets]
    | Nat.succ j =>
      simp only [MP4.stcoOffsets, List.getD_cons_succ]
      rw [ih (acc + p) j (by simpa using h)]
      simp [List.take_succ_cons, Nat.add_assoc]

/-- One step of `precedingSum` on a part of the same track. -/
theorem precedingSum_cons_same (s : Nat) (rest : List (Nat × Nat))
    (tid i : Nat) :
    MP4.precedingSum ((tid, s) :: rest) tid i =
      if i = 0 then 0 else s + MP4.precedingSum rest tid (i - 1) := by
  simp [MP4.precedingSum]

/-- One step of `precedingSum` on a part of another track. -/
theorem precedingSum_cons_other (tr s : Nat) (rest : List (Nat × Nat))
    (tid i : Nat) (h : tr ≠ tid) :
    MP4.precedingSum ((tr, s) :: rest) tid i =
      s + MP4.precedingSum rest tid i := by
  simp [MP4.precedingSum, h]

/-- Value of `precedingSum` over one key of the same track, inside that key. -/
theorem precedingSum_same_lt (ps : List Nat) (l : List (Nat × Nat))
    (tid i : Nat) (h : i < ps.length) :
    MP4.precedingSum (ps.map (fun s => (tid, s)) ++ l) tid i =
      (ps.take i).sum := by
  induction ps generalizing i with
  | nil => simp at h
  | cons p ps ih =>
    simp only [List.map_cons, List.cons_append, precedingSum_cons_same]
    match i with
    | 0 => simp
    | Nat.succ j =>
      rw [if_neg (Nat.succ_ne_zero j)]
      simp only [Nat.succ_sub_one]
      rw [ih j (by simpa using h)]
      simp [List.take_succ_cons]

/-- Value of `precedingSum` over one key of the same track, past that key. -/
theorem precedingSum_same_ge (ps : List Nat) (l : List (Nat × Nat))
    (tid i : Nat) (h : ps.length ≤ i) :
    MP4.precedingSum (ps.map (fun s => (tid, s)) ++ l) tid i =
      ps.sum + MP4.precedingSum l tid (i - ps.length) := by
  induction ps generalizing i with
  | nil => simp
  | cons p ps ih =>
    simp only [List.map_cons, List.cons_append, precedingSum_cons_same]
    match i, h with
    | Nat.succ j, h =>
      rw [if_neg (Nat.succ_ne_zero j)]
      simp only [Nat.succ_sub_one]
      rw [ih j (by simpa using h)]
      simp only [List.sum_cons, List.length_cons, Nat.succ_sub_succ]
      omega

/-- Value of `precedingSum` over one key of another track. -/
theorem precedingSum_other (ps : List Nat) (l : List (Nat × Nat))
    (tr tid i : Nat) (h : tr ≠ tid) :
    MP4.precedingSum (ps.map (fun s => (tr, s)) ++ l) tid i =
      ps.sum + MP4.precedingSum l tid i := by
  induction ps with
  | nil => simp
  | cons p ps ih =>
    simp only [List.map_cons, List.cons_append]
    rw [precedingSum_cons_other _ _ _ _ _ h, ih]
    simp only [List.sum_cons]
    omega

/-- The `stco` fill: entry `i` equals the running base plus the sizes of
all parts preceding the `i`-th part of the track in interleave order. -/
theorem stcoLoop_getD (kps : List MP4.keyPart) (tid : Nat) :
    (∀ kp ∈ kps, kp.size = kp.parts.sum) →
    ∀ (acc i : Nat), i < (MP4.stcoLoop kps tid acc).length →
      (MP4.stcoLoop kps tid acc).getD i 0 =
        acc + MP4.precedingSum (MP4.interleaveParts kps) tid i := by
  induction kps with
  | nil =>
    intro _ acc i hi
    simp [MP4.stcoLoop] at hi
  | cons kp rest ih =>
    intro hwf acc i hi
    have hwf' : ∀ k ∈ rest, k.size = k.parts.sum :=
      fun k hk => hwf k (List.mem_cons_of_mem kp hk)
    by_cases htr : kp.trackID = tid
    · simp only [MP4.stcoLoop, if_pos htr] at hi ⊢
      simp only [MP4.interleaveParts, htr]
      by_cases hin : i < kp.parts.length
      · rw [getD_append_lt _ _ _ _ (by rw [stcoOffsets_length]; omega)]
        rw [stcoOffsets_getD _ _ _ hin, precedingSum_same_lt _ _ _ _ hin]
      · push_neg at hin
        rw [List.getD_append_right _ _ _ _ (by rw [stcoOffsets_length]; omega)]
        rw [stcoOffsets_length]
        rw [ih hwf' (acc + kp.parts.sum) (i - kp.parts.length)
          (by rw [List.length_append, stcoOffsets_length] at hi; omega)]
        rw [precedingSum_same_ge _ _ _ _ hin]
        omega
    · simp only [MP4.stcoLoop, if_neg htr] at hi ⊢
      simp only [MP4.interleaveParts]
      rw [ih hwf' (acc + kp.size) i hi, precedingSum_other _ _ _ _ _ htr]
      have hs : kp.size = kp.parts.sum := hwf kp (List.mem_cons_self kp rest)
      omega

/-- The `map` of the back-patch pass, pointwise. -/
theorem getD_map_add (l : List Nat) (c i : Nat) (h : i < l.length) :
    (l.map (· + c)).getD i 0 = l.getD i 0 + c := by
  induction l generalizing i with
  | nil => simp at h
  | cons x xs ih =>
    match i with
    | 0 => rfl
    | Nat.succ j => exact ih j (by simpa using h)

/-- C1: for well-formed fixed-stream metadata (each key's `size` is the
sum of its decoded part sizes), every `stco` entry of every track in the
header produced by `DTSCMeta2MP4Header` equals
`ftyp.boxedSize() + moov.boxedSize() + 8` plus the sum of the sizes of
all parts (of any track) preceding that entry's part in the interleave
order of the `keyParts` set. -/
theorem mp4_stco_interleave_offsets (kps : List MP4.keyPart)
    (hwf : ∀ kp ∈ kps, kp.size = kp.parts.sum)
    (tid i ftypSize moovSize : Nat)
    (hi : i < (MP4.stcoPatched kps tid (ftypSize + moovSize + 8)).length) :
    (MP4.stcoPatched kps tid (ftypSize + moovSize + 8)).getD i 0 =
      ftypSize + moovSize + 8 +
        MP4.precedingSum (MP4.interleaveParts kps) tid i := by
  unfold MP4.stcoPatched at hi ⊢
  rw [List.length_map] at hi
  rw [getD_map_add _ _ _ hi]
  unfold MP4.stcoRaw at hi ⊢
  rw [stcoLoop_getD kps tid hwf 0 i hi]
  omega

/-- Witness for C1 at the spec's two-track scenario (one 1000-byte video
keyframe, one 200-byte audio frame; video first in the interleave). -/
theorem mp4_stco_interleave_offsets_witness :
    ((∀ kp ∈ [(⟨1, 1000, 0, 40, [1000], 1⟩ : MP4.keyPart),
        ⟨2, 200, 10, 20, [200], 1⟩], kp.size = kp.parts.sum) ∧
      0 < (MP4.stcoPatched [⟨1, 1000, 0, 40, [1000], 1⟩,
        ⟨2, 200, 10, 20, [200], 1⟩] 2 (100 + 200 + 8)).length) ∧
    (MP4.stcoPatched [(⟨1, 1000, 0, 40, [1000], 1⟩ : MP4.keyPart),
        ⟨2, 200, 10, 20, [200], 1⟩] 2 (100 + 200 + 8)).getD 0 0 =
      100 + 200 + 8 + MP4.precedingSum (MP4.interleaveParts
        [⟨1, 1000, 0, 40, [1000], 1⟩, ⟨2, 200, 10, 20, [200], 1⟩]) 2 0 :=
  ⟨⟨by decide, by decide⟩,
    mp4_stco_interleave_offsets
      [⟨1, 1000, 0, 40, [1000], 1⟩, ⟨2, 200, 10, 20, [200], 1⟩]
      (by decide) 2 0 100 200 (by decide)⟩
